import Mathlib

/-! # Multi-core packet router simulator: embedding and verified properties

Shallow embedding of `thread_safe_queue.h`, `routing_table.h`, `statistics.h`,
`routing_core.h` and the admission path of `router.cpp`.

Conventions.
* Every method of `ThreadSafeQueue`, `RoutingTable` and the latency store of
  `Statistics` runs under the object's mutex, so a call is one atomic
  transition of the object's state; a concurrent execution is a sequence of
  such transitions in the order in which the lock was taken.
* `std::queue<T>` is a list whose head is the front of the queue.
* `size_t` values and the `std::atomic<uint64_t>` event counters are natural
  numbers: they only ever grow by one per call and no execution performs
  `2^64` calls.  The one subtraction on `uint64_t` (the latency) is modelled
  with its wrap-around modulo `2^64`.  Where a property ranges over every
  counter value, `process_packet_u64` gives the stored values with the
  wrap-around of `++`; they are the counts of `process_packet` modulo `2^64`.
* Threads appear only where a property is about them: a thread inside `pop` is
  a small state machine around the wait predicate, and a worker thread is the
  pass-by-pass execution of `worker_loop`.
-/

/-! ## thread_safe_queue.h -/

/-- State of a `ThreadSafeQueue<T>`: the `std::queue` (front first), the
`shutdown` flag and the capacity `max_size`. -/
structure ThreadSafeQueue (α : Type) where
  queue : List α
  shutdown : Bool
  max_size : Nat
deriving DecidableEq, Repr

namespace ThreadSafeQueue

variable {α : Type}

/-- Constructor `ThreadSafeQueue(size_t max_size)`: empty, not shut down. -/
def init (max_size : Nat) : ThreadSafeQueue α :=
  { queue := [], shutdown := false, max_size := max_size }

/-- The wait predicate of `pop` and `try_pop`:
`!queue.empty() || shutdown`. -/
def ready (q : ThreadSafeQueue α) : Bool :=
  !q.queue.isEmpty || q.shutdown

/-- Method `bool push(const T& item)`: the returned flag and the state after
the call. -/
def push (q : ThreadSafeQueue α) (item : α) : Bool × ThreadSafeQueue α :=
  if q.shutdown then (false, q)
  else if q.queue.length ≥ q.max_size then (false, q)
  else (true, { q with queue := q.queue ++ [item] })

/-- Method `bool pop(T& item)`.  `none`: the wait predicate is false, the call
stays blocked in `cv.wait` and has no effect.  `some (none, q)`: the call
returned `false`.  `some (some x, q)`: the call returned `true` with
`item = x`. -/
def pop (q : ThreadSafeQueue α) : Option (Option α × ThreadSafeQueue α) :=
  if !q.ready then none
  else if q.shutdown && q.queue.isEmpty then some (none, q)
  else some (q.queue.head?, { q with queue := q.queue.tail })

/-- Method `bool try_pop(T& item, timeout)`: when the wait predicate is false
`wait_for` times out and the call returns `false`. -/
def try_pop (q : ThreadSafeQueue α) : Option α × ThreadSafeQueue α :=
  if !q.ready then (none, q)
  else if q.shutdown && q.queue.isEmpty then (none, q)
  else (q.queue.head?, { q with queue := q.queue.tail })

/-- Method `size_t size() const`. -/
def size (q : ThreadSafeQueue α) : Nat := q.queue.length

/-- Method `bool empty() const`. -/
def empty (q : ThreadSafeQueue α) : Bool := q.queue.isEmpty

/-- Method `void set_shutdown()`. -/
def set_shutdown (q : ThreadSafeQueue α) : ThreadSafeQueue α :=
  { q with shutdown := true }

/-- Method `void clear()`: swaps the queue with an empty one. -/
def clear (q : ThreadSafeQueue α) : ThreadSafeQueue α :=
  { q with queue := [] }

/-- One call on the queue. -/
inductive Op (α : Type) where
  | push (item : α)
  | pop
  | try_pop
  | clear
  | set_shutdown
deriving DecidableEq, Repr

/-- What a run has observed so far: the items whose `push` returned `true`
and the items handed out by `pop`/`try_pop` calls that returned `true`, both
in call order. -/
structure Log (α : Type) where
  accepted : List α
  popped : List α
deriving DecidableEq, Repr

/-- Effect of one call on the queue and on the log.  A `pop` whose wait
predicate is false is blocked: it changes nothing. -/
def exec (st : ThreadSafeQueue α × Log α) : Op α → ThreadSafeQueue α × Log α
  | Op.push x =>
    let r := st.1.push x
    (r.2, if r.1 then { st.2 with accepted := st.2.accepted ++ [x] } else st.2)
  | Op.pop =>
    match st.1.pop with
    | none => st
    | some (none, q) => (q, st.2)
    | some (some x, q) => (q, { st.2 with popped := st.2.popped ++ [x] })
  | Op.try_pop =>
    match st.1.try_pop with
    | (none, q) => (q, st.2)
    | (some x, q) => (q, { st.2 with popped := st.2.popped ++ [x] })
  | Op.clear => (st.1.clear, st.2)
  | Op.set_shutdown => (st.1.set_shutdown, st.2)

/-- State of the queue after one call. -/
def step (q : ThreadSafeQueue α) (op : Op α) : ThreadSafeQueue α :=
  (exec (q, ⟨[], []⟩) op).1

/-- State of the queue after a sequence of calls. -/
def run (q : ThreadSafeQueue α) (ops : List (Op α)) : ThreadSafeQueue α :=
  ops.foldl step q

/-- Queue and log after a sequence of calls. -/
def runLog (st : ThreadSafeQueue α × Log α) (ops : List (Op α)) :
    ThreadSafeQueue α × Log α :=
  ops.foldl exec st

/-- The items handed out so far followed by the items still stored are the
items accepted so far. -/
def Log.Consistent (st : ThreadSafeQueue α × Log α) : Prop :=
  st.2.popped ++ st.1.queue = st.2.accepted

end ThreadSafeQueue

/-! ## packet.h -/

/-- Record `Packet` (all fields are unsigned machine integers). -/
structure Packet where
  id : Nat
  source_ip : Nat
  dest_ip : Nat
  source_port : Nat
  dest_port : Nat
  arrival_time : Nat
  processing_start_time : Nat
  size : Nat
  priority : Nat
deriving DecidableEq, Repr

namespace Packet

/-- Default constructor `Packet()`. -/
def default : Packet :=
  { id := 0, source_ip := 0, dest_ip := 0, source_port := 0, dest_port := 0,
    arrival_time := 0, processing_start_time := 0, size := 1500, priority := 1 }

/-- Constructor `Packet(id, src, dst, time)`. -/
def mk4 (id src dst time : Nat) : Packet :=
  { id := id, source_ip := src, dest_ip := dst, source_port := 0, dest_port := 0,
    arrival_time := time, processing_start_time := 0, size := 1500, priority := 1 }

/-- Constructor `Packet(id, src, dst, time, prio, sz)`. -/
def mk6 (id src dst time prio sz : Nat) : Packet :=
  { id := id, source_ip := src, dest_ip := dst, source_port := 0, dest_port := 0,
    arrival_time := time, processing_start_time := 0, size := sz, priority := prio }

end Packet

/-! ## routing_table.h -/

/-- State of a `RoutingTable`: the entries of the
`std::unordered_map<uint32_t, int>`, in some order.  The operations below keep
the keys distinct. -/
structure RoutingTable where
  routes : List (Nat × Int)
deriving DecidableEq, Repr

namespace RoutingTable

/-- A freshly constructed table has no entry. -/
def init : RoutingTable := { routes := [] }

/-- The map operation `routes.find(k)`: the mapped value of the entry with key
`k`, or `none` for `routes.end()`. -/
def find : List (Nat × Int) → Nat → Option Int
  | [], _ => none
  | e :: es, k => if e.1 = k then some e.2 else find es k

/-- The map operation `routes[k] = p`: overwrite the entry with key `k`, or
insert one when there is none. -/
def assign : List (Nat × Int) → Nat → Int → List (Nat × Int)
  | [], k, p => [(k, p)]
  | e :: es, k, p => if e.1 = k then (k, p) :: es else e :: assign es k p

/-- The map operation `routes.erase(k)`: the entries left. -/
def erase : List (Nat × Int) → Nat → List (Nat × Int)
  | [], _ => []
  | e :: es, k => if e.1 = k then erase es k else e :: erase es k

/-- Whether the table has a route for `k` (`routes.find(k) != routes.end()`). -/
def has_route (t : RoutingTable) (dest_ip : Nat) : Bool :=
  (find t.routes dest_ip).isSome

/-- Method `void add_route(uint32_t dest_ip, int output_port)`. -/
def add_route (t : RoutingTable) (dest_ip : Nat) (output_port : Int) : RoutingTable :=
  { routes := assign t.routes dest_ip output_port }

/-- Method `int lookup(uint32_t dest_ip) const`. -/
def lookup (t : RoutingTable) (dest_ip : Nat) : Int :=
  match find t.routes dest_ip with
  | some port => port
  | none => -1

/-- Method `bool remove_route(uint32_t dest_ip)`: `routes.erase(dest_ip) > 0`,
the number of erased entries being the drop in size, and the table after the
call. -/
def remove_route (t : RoutingTable) (dest_ip : Nat) : Bool × RoutingTable :=
  let rest := erase t.routes dest_ip
  (decide (t.routes.length - rest.length > 0), { routes := rest })

/-- Method `void clear()`. -/
def clear (_t : RoutingTable) : RoutingTable := { routes := [] }

/-- Method `size_t size() const`. -/
def size (t : RoutingTable) : Nat := t.routes.length

/-- Method `get_all_routes() const`. -/
def get_all_routes (t : RoutingTable) : List (Nat × Int) := t.routes

/-- Keys of a table are pairwise distinct (the state invariant of
`std::unordered_map`). -/
def WF (t : RoutingTable) : Prop := (t.routes.map Prod.fst).Nodup

end RoutingTable

/-! ## Double-precision arithmetic used by statistics.h

`get_percentile_latency` multiplies its `double` argument by the sample count
and truncates the product to `size_t`.  Only finite non-negative doubles occur
for a percentile in `[0, 1]`; such a double is a dyadic rational
`num / 2^exp`. -/

/-- A finite non-negative `double`, as the dyadic rational `num / 2^exp`. -/
structure Double where
  num : Nat
  exp : Nat
deriving DecidableEq, Repr

namespace Double

/-- The number of times `N` must be halved to fall below `2^53`, that is the
number of low-order bits of `N` that do not fit a 53-bit significand
(`fuel` bounds the number of halvings; `N` itself is enough). -/
def excessBits : Nat → Nat → Nat
  | 0, _ => 0
  | fuel + 1, N => if N < 2 ^ 53 then 0 else excessBits fuel (N / 2) + 1

/-- Rounding of a natural number to 53 significant bits, to nearest with ties
to even (the IEEE-754 default rounding of a binary64 significand). -/
def round53 (N : Nat) : Nat :=
  let s := excessBits N N
  let q := N / 2 ^ s
  let r := N % 2 ^ s
  if 2 * r < 2 ^ s then q * 2 ^ s
  else if 2 * r = 2 ^ s ∧ q % 2 = 0 then q * 2 ^ s
  else (q + 1) * 2 ^ s

/-- The values that are binary64 numbers: at most 53 significant bits and a
quantum of at least `2^-1074`. -/
def IsBinary64 (a : Double) : Prop :=
  round53 a.num = a.num ∧ a.exp ≤ 1074

instance (a : Double) : Decidable (IsBinary64 a) := by
  unfold IsBinary64; exact inferInstance

/-- The rational number a double denotes. -/
def toRat (a : Double) : ℚ := (a.num : ℚ) / 2 ^ a.exp

/-- Conversion `size_t` to `double` (exact below `2^53`). -/
def ofSize (n : Nat) : Double := { num := round53 n, exp := 0 }

/-- The product of two doubles: the exact product `a.num * b.num / 2^(a.exp +
b.exp)` rounded to a 53-bit significand.  (When `b` is an integer and `a` is a
binary64 number the product is at least as coarse as `a`, so it is never
rounded to a subnormal.) -/
def mul (a b : Double) : Double :=
  { num := round53 (a.num * b.num), exp := a.exp + b.exp }

/-- Conversion `static_cast<size_t>(double)`: truncation towards zero. -/
def toSize (a : Double) : Nat := a.num / 2 ^ a.exp

/-- The `double` literal `0.5`. -/
def half : Double := { num := 1, exp := 1 }

/-- The `double` literal `0.99`: the binary64 number nearest to 99/100. -/
def p99 : Double := { num := 4458563631096791, exp := 52 }

/-- The `double` literal `0.95` (the `p95` of `print_summary`): the binary64
number nearest to 95/100. -/
def p95 : Double := { num := 4278419646001971, exp := 52 }

end Double

/-! ## statistics.h -/

/-- State of a `Statistics` object: the five counters and the latency
samples in recording order. -/
structure Statistics where
  total_packets : Nat
  packets_forwarded : Nat
  packets_dropped : Nat
  congestion_drops : Nat
  no_route_drops : Nat
  latencies : List Nat
deriving DecidableEq, Repr

namespace Statistics

/-- The default member initialisers: all counters `0`, no sample. -/
def init : Statistics :=
  { total_packets := 0, packets_forwarded := 0, packets_dropped := 0,
    congestion_drops := 0, no_route_drops := 0, latencies := [] }

/-- Method `void record_latency(uint64_t latency)`. -/
def record_latency (s : Statistics) (latency : Nat) : Statistics :=
  { s with latencies := s.latencies ++ [latency] }

/-- The index computation of `get_percentile_latency` on `count` sorted
samples: `static_cast<size_t>(percentile * count)`, clamped to `count - 1`. -/
def percentile_index (percentile : Double) (count : Nat) : Nat :=
  let index := Double.toSize (Double.mul percentile (Double.ofSize count))
  if index ≥ count then count - 1 else index

/-- Method `uint64_t get_percentile_latency(double percentile) const`.
`std::sort` yields the ascending arrangement of the samples. -/
def get_percentile_latency (s : Statistics) (percentile : Double) : Nat :=
  if s.latencies.isEmpty then 0
  else
    let sorted_latencies := s.latencies.insertionSort (· ≤ ·)
    sorted_latencies.getD (percentile_index percentile sorted_latencies.length) 0

/-- The counter relation `packets_dropped == congestion_drops + no_route_drops`. -/
def drops_consistent (s : Statistics) : Prop :=
  s.packets_dropped = s.congestion_drops + s.no_route_drops

instance (s : Statistics) : Decidable (drops_consistent s) := by
  unfold drops_consistent; exact inferInstance

/-- The values the five `std::atomic<uint64_t>` counters hold when the counts
are the given ones: each count modulo `2^64`. -/
def wrap64 (s : Statistics) : Statistics :=
  { s with total_packets := s.total_packets % 2 ^ 64,
           packets_forwarded := s.packets_forwarded % 2 ^ 64,
           packets_dropped := s.packets_dropped % 2 ^ 64,
           congestion_drops := s.congestion_drops % 2 ^ 64,
           no_route_drops := s.no_route_drops % 2 ^ 64 }

/-- Every counter is a `uint64_t` value. -/
def IsU64 (s : Statistics) : Prop :=
  s.total_packets < 2 ^ 64 ∧ s.packets_forwarded < 2 ^ 64 ∧ s.packets_dropped < 2 ^ 64 ∧
    s.congestion_drops < 2 ^ 64 ∧ s.no_route_drops < 2 ^ 64

instance (s : Statistics) : Decidable (IsU64 s) := by
  unfold IsU64; exact inferInstance

/-- Method `void reset()`. -/
def reset (_s : Statistics) : Statistics :=
  { total_packets := 0, packets_forwarded := 0, packets_dropped := 0,
    congestion_drops := 0, no_route_drops := 0, latencies := [] }

end Statistics

/-! ## routing_core.h -/

/-- State of a `RoutingCore` (the references to the shared queue, table and
statistics are passed to the methods). -/
structure RoutingCore where
  core_id : Int
  running : Bool
  packets_processed : Nat
deriving DecidableEq, Repr

namespace RoutingCore

/-- Constant `CONGESTION_THRESHOLD`. -/
def CONGESTION_THRESHOLD : Nat := 8000

/-- Constructor `RoutingCore(id, queue, table, statistics)`. -/
def init (id : Int) : RoutingCore :=
  { core_id := id, running := false, packets_processed := 0 }

/-- The `uint64_t` subtraction `a - b`. -/
def sub64 (a b : Nat) : Nat := (a % 2 ^ 64 + (2 ^ 64 - b % 2 ^ 64)) % 2 ^ 64

/-- Method `void process_packet(Packet& packet)`.  `input_queue` is the state
of the shared queue when `input_queue.size()` is read, `now_us` the reading of
the steady clock.  Returns the core, the statistics and the packet after the
call.  The counters are the counts themselves; the values the
`std::atomic<uint64_t>` fields store are these counts modulo `2^64`, which
`process_packet_u64` computes. -/
def process_packet (core : RoutingCore) (input_queue : ThreadSafeQueue Packet)
    (routing_table : RoutingTable) (now_us : Nat) (stats : Statistics)
    (packet : Packet) : RoutingCore × Statistics × Packet :=
  let core := { core with packets_processed := core.packets_processed + 1 }
  let stats := { stats with total_packets := stats.total_packets + 1 }
  let packet := { packet with processing_start_time := now_us }
  if input_queue.size > CONGESTION_THRESHOLD then
    let stats := { stats with packets_dropped := stats.packets_dropped + 1 }
    let stats := { stats with congestion_drops := stats.congestion_drops + 1 }
    (core, stats, packet)
  else
    let output_port := routing_table.lookup packet.dest_ip
    if output_port = -1 then
      let stats := { stats with packets_dropped := stats.packets_dropped + 1 }
      let stats := { stats with no_route_drops := stats.no_route_drops + 1 }
      (core, stats, packet)
    else
      let stats := { stats with packets_forwarded := stats.packets_forwarded + 1 }
      let latency := sub64 packet.processing_start_time packet.arrival_time
      (core, stats.record_latency latency, packet)

/-- The `uint64_t` increment `x++`: it wraps from `2^64 - 1` to `0`. -/
def inc64 (x : Nat) : Nat := (x + 1) % 2 ^ 64

/-- Method `void process_packet(Packet& packet)` on the stored counter values:
the same statements as `process_packet`, every `++` being the `uint64_t`
increment.  `process_packet` computes the counts themselves, of which these
are the residues modulo `2^64`. -/
def process_packet_u64 (core : RoutingCore) (input_queue : ThreadSafeQueue Packet)
    (routing_table : RoutingTable) (now_us : Nat) (stats : Statistics)
    (packet : Packet) : RoutingCore × Statistics × Packet :=
  let core := { core with packets_processed := inc64 core.packets_processed }
  let stats := { stats with total_packets := inc64 stats.total_packets }
  let packet := { packet with processing_start_time := now_us }
  if input_queue.size > CONGESTION_THRESHOLD then
    let stats := { stats with packets_dropped := inc64 stats.packets_dropped }
    let stats := { stats with congestion_drops := inc64 stats.congestion_drops }
    (core, stats, packet)
  else
    let output_port := routing_table.lookup packet.dest_ip
    if output_port = -1 then
      let stats := { stats with packets_dropped := inc64 stats.packets_dropped }
      let stats := { stats with no_route_drops := inc64 stats.no_route_drops }
      (core, stats, packet)
    else
      let stats := { stats with packets_forwarded := inc64 stats.packets_forwarded }
      let latency := sub64 packet.processing_start_time packet.arrival_time
      (core, stats.record_latency latency, packet)

/-- Method `int get_core_id() const`. -/
def get_core_id (core : RoutingCore) : Int := core.core_id

/-- The circumstances of one `process_packet` call: the calling core, the
queue and the table as the call reads them, the clock reading and the
packet. -/
structure Call where
  core : RoutingCore
  input_queue : ThreadSafeQueue Packet
  routing_table : RoutingTable
  now_us : Nat
  packet : Packet

/-- The shared statistics after a sequence of `process_packet` calls, made by
any cores under any circumstances. -/
def process_all (stats : Statistics) (calls : List Call) : Statistics :=
  calls.foldl
    (fun s c => (process_packet c.core c.input_queue c.routing_table c.now_us s c.packet).2.1)
    stats

end RoutingCore

/-! ## router.h, router.cpp -/

/-- Enumeration `LoadBalancingStrategy`. -/
inductive LoadBalancingStrategy where
  | ROUND_ROBIN
  | LEAST_LOADED
  | HASH_BASED
deriving DecidableEq, Repr

/-- State of a `Router`. -/
structure Router where
  num_cores : Int
  routing_table : RoutingTable
  input_queue : ThreadSafeQueue Packet
  stats : Statistics
  cores : List RoutingCore
  load_balance_strategy : LoadBalancingStrategy
  round_robin_counter : Int
deriving DecidableEq, Repr

namespace Router

/-- Constructor `Router(int num_cores, LoadBalancingStrategy strategy)`: a
queue of capacity 10000 and the cores `0 .. num_cores - 1`. -/
def init (num_cores : Int) (strategy : LoadBalancingStrategy) : Router :=
  { num_cores := num_cores,
    routing_table := RoutingTable.init,
    input_queue := ThreadSafeQueue.init 10000,
    stats := Statistics.init,
    cores := (List.range num_cores.toNat).map (fun i => RoutingCore.init (i : Int)),
    load_balance_strategy := strategy,
    round_robin_counter := 0 }

/-- Method `void add_route(uint32_t dest_ip, int output_port)`. -/
def add_route (r : Router) (dest_ip : Nat) (output_port : Int) : Router :=
  { r with routing_table := r.routing_table.add_route dest_ip output_port }

/-- Method `bool inject_packet(const Packet& packet)`. -/
def inject_packet (r : Router) (packet : Packet) : Bool × Router :=
  let res := r.input_queue.push packet
  (res.1, { r with input_queue := res.2 })

/-- The accounting of a rejected admission in `run_simulation`:
`stats.packets_dropped++; stats.congestion_drops++;`. -/
def count_rejected (stats : Statistics) : Statistics :=
  let stats := { stats with packets_dropped := stats.packets_dropped + 1 }
  { stats with congestion_drops := stats.congestion_drops + 1 }

/-- The admission step of the generation loop of `run_simulation`:
`if (!inject_packet(packet)) { stats.packets_dropped++; stats.congestion_drops++; }`. -/
def admit_or_count (r : Router) (packet : Packet) : Router :=
  let res := r.inject_packet packet
  if !res.1 then { res.2 with stats := count_rejected res.2.stats }
  else res.2

/-- The packet built by iteration `i` of the generation loop of
`run_simulation` from the elapsed time and the three random draws. -/
def simulated_packet (i elapsed_us dest_ip priority size : Nat) : Packet :=
  Packet.mk6 (i % 2 ^ 32) 0xC0A80101 dest_ip elapsed_us priority size

/-- The operations of the repository that write the statistics counters: a
`process_packet` call, `Statistics::reset`, and the accounting of a rejected
admission in `run_simulation`. -/
inductive Update where
  | process (c : RoutingCore.Call)
  | reset
  | rejected

/-- Effect of one counter-writing operation on the statistics. -/
def apply_update (stats : Statistics) : Update → Statistics
  | Update.process c =>
    (RoutingCore.process_packet c.core c.input_queue c.routing_table c.now_us stats c.packet).2.1
  | Update.reset => stats.reset
  | Update.rejected => count_rejected stats

/-- The statistics after a sequence of counter-writing operations. -/
def apply_updates (stats : Statistics) (us : List Update) : Statistics :=
  us.foldl apply_update stats

end Router

/-! ## Threads blocked in `pop` (thread_safe_queue.h)

`cv.wait(lock, pred)` is `while (!pred()) cv.wait(lock);`: a thread inside
`pop` either is about to evaluate the wait predicate under the mutex (on
entry, or after it was woken), or is suspended inside `cv.wait`, or has
returned.  `notify_all` wakes every suspended thread, `notify_one` wakes one of
them, and a suspended thread may also wake spuriously. -/

namespace ThreadSafeQueue

variable {α : Type}

/-- Where a thread that called `pop` stands. -/
inductive PopCall (α : Type) where
  | ready
  | waiting
  | returned (r : Option α)
deriving DecidableEq, Repr

/-- A queue together with the threads that have called `pop` on it. -/
structure Pool (α : Type) where
  q : ThreadSafeQueue α
  threads : List (PopCall α)
deriving DecidableEq, Repr

/-- What can happen next: thread `i` runs up to its next suspension or return;
some other thread calls `push(x)`, its `notify_one` reaching thread `wake`;
some other thread calls `set_shutdown()`; thread `i` wakes spuriously. -/
inductive Move (α : Type) where
  | run (i : Nat)
  | push (x : α) (wake : Nat)
  | set_shutdown
  | spurious (i : Nat)
deriving DecidableEq, Repr

/-- Wake-up of one thread: a suspended thread evaluates the predicate next. -/
def PopCall.wake : PopCall α → PopCall α
  | PopCall.waiting => PopCall.ready
  | t => t

/-- Apply `f` to the thread at position `i`. -/
def modifyNth (f : PopCall α → PopCall α) : List (PopCall α) → Nat → List (PopCall α)
  | [], _ => []
  | t :: ts, 0 => f t :: ts
  | t :: ts, i + 1 => t :: modifyNth f ts i

/-- Thread `i` takes the mutex and evaluates the wait predicate of `pop`: it
suspends when the predicate is false and otherwise completes `pop`. -/
def Pool.run_thread (s : Pool α) (i : Nat) : Pool α :=
  match s.threads[i]? with
  | some PopCall.ready =>
    match s.q.pop with
    | none => { s with threads := modifyNth (fun _ => PopCall.waiting) s.threads i }
    | some (r, q') => { q := q', threads := modifyNth (fun _ => PopCall.returned r) s.threads i }
  | _ => s

/-- One move of the pool. -/
def Pool.move (s : Pool α) : Move α → Pool α
  | Move.run i => s.run_thread i
  | Move.push x wake =>
    let res := s.q.push x
    if res.1 then { q := res.2, threads := modifyNth PopCall.wake s.threads wake }
    else { s with q := res.2 }
  | Move.set_shutdown => { q := s.q.set_shutdown, threads := s.threads.map PopCall.wake }
  | Move.spurious i => { s with threads := modifyNth PopCall.wake s.threads i }

/-- The pool after a sequence of moves. -/
def Pool.moves (s : Pool α) (ms : List (Move α)) : Pool α :=
  ms.foldl Pool.move s

/-- The state of affairs after shutdown of an empty queue: the flag is set,
nothing is stored, and every thread either is about to evaluate the wait
predicate or has returned "no item"; none is suspended and none was handed an
item. -/
def Pool.Drained (s : Pool α) : Prop :=
  s.q.shutdown = true ∧ s.q.queue = [] ∧
    ∀ t ∈ s.threads, t = PopCall.ready ∨ t = PopCall.returned none

end ThreadSafeQueue

/-! ## The worker loop and the router as a transition system -/

namespace Statistics

/-- The counter relation `total_packets == packets_forwarded + packets_dropped`. -/
def totals_consistent (s : Statistics) : Prop :=
  s.total_packets = s.packets_forwarded + s.packets_dropped

instance (s : Statistics) : Decidable (totals_consistent s) := by
  unfold totals_consistent; exact inferInstance

end Statistics

namespace RoutingCore

/-- Method `void start()`: sets the flag (and launches the worker thread). -/
def start (core : RoutingCore) : RoutingCore := { core with running := true }

/-- Method `void stop()`: clears the flag (and joins the worker thread). -/
def stop (core : RoutingCore) : RoutingCore := { core with running := false }

/-- What one pass through `while (running.load()) { ... }` did. -/
inductive Pass where
  | exited
  | blocked
  | no_item
  | processed
deriving DecidableEq, Repr

/-- One pass of `worker_loop`, from the loop test on: `exited` when `running`
is false (the loop is left and `pop` is not called); otherwise `pop` is called
and the pass is `blocked` while `pop` waits, `no_item` when `pop` returned
false, `processed` when it returned a packet, which `process_packet` then
handles.  After `no_item` and `processed` control is back at the loop test. -/
def worker_iteration (core : RoutingCore) (input_queue : ThreadSafeQueue Packet)
    (routing_table : RoutingTable) (now_us : Nat) (stats : Statistics) :
    Pass × RoutingCore × ThreadSafeQueue Packet × Statistics :=
  if !core.running then (Pass.exited, core, input_queue, stats)
  else
    match input_queue.pop with
    | none => (Pass.blocked, core, input_queue, stats)
    | some (none, q) => (Pass.no_item, core, q, stats)
    | some (some packet, q) =>
      let res := process_packet core q routing_table now_us stats packet
      (Pass.processed, res.1, q, res.2.1)

end RoutingCore

namespace Router

/-- Method `void start()`. -/
def start (r : Router) : Router :=
  { r with cores := r.cores.map RoutingCore.start }

/-- Method `void stop()`: `input_queue.set_shutdown()`, then `stop()` on
every core. -/
def stop (r : Router) : Router :=
  { r with input_queue := r.input_queue.set_shutdown,
           cores := r.cores.map RoutingCore.stop }

/-- The worker thread of core `i` makes one pass of its loop. -/
def work (r : Router) (i : Nat) (now_us : Nat) : Router :=
  match r.cores[i]? with
  | none => r
  | some core =>
    let res := RoutingCore.worker_iteration core r.input_queue r.routing_table now_us r.stats
    { r with cores := r.cores.set i res.2.1, input_queue := res.2.2.1, stats := res.2.2.2 }

/-- The calls made on a router and the steps of its worker threads (no
`Statistics::reset`, no `clear` of the queue).  `stop` is a completed call of
`Router::stop`; `set_shutdown` and `stop_core i` are its single statements
`input_queue.set_shutdown()` and `cores[i]->stop()`, between which the worker
threads keep running. -/
inductive Action where
  | inject (packet : Packet)
  | simulate (packet : Packet)
  | work (i : Nat) (now_us : Nat)
  | add_route (dest_ip : Nat) (output_port : Int)
  | start
  | stop
  | set_shutdown
  | stop_core (i : Nat)
deriving DecidableEq, Repr

/-- Effect of one action on the router and on the number of `inject_packet`
calls that returned true so far (`simulate` is the admission step of
`run_simulation`, which calls `inject_packet`). -/
def act (st : Router × Nat) : Action → Router × Nat
  | Action.inject packet =>
    let res := st.1.inject_packet packet
    (res.2, if res.1 then st.2 + 1 else st.2)
  | Action.simulate packet =>
    (st.1.admit_or_count packet, if (st.1.inject_packet packet).1 then st.2 + 1 else st.2)
  | Action.work i now_us => (st.1.work i now_us, st.2)
  | Action.add_route dest_ip output_port => (st.1.add_route dest_ip output_port, st.2)
  | Action.start => (st.1.start, st.2)
  | Action.stop => (st.1.stop, st.2)
  | Action.set_shutdown => ({ st.1 with input_queue := st.1.input_queue.set_shutdown }, st.2)
  | Action.stop_core i =>
    ({ st.1 with cores := match st.1.cores[i]? with
        | none => st.1.cores
        | some core => st.1.cores.set i core.stop }, st.2)

/-- Router and accepted-injection count after a sequence of actions. -/
def acts (st : Router × Nat) (as : List Action) : Router × Nat :=
  as.foldl act st

/-- Every accepted packet is either still queued or counted in
`total_packets`. -/
def Conserved (st : Router × Nat) : Prop :=
  st.2 = st.1.stats.total_packets + st.1.input_queue.size

end Router

/-! # Verified properties -/

/-! ## ThreadSafeQueue -/

namespace ThreadSafeQueue

variable {α : Type}

theorem step_push (q : ThreadSafeQueue α) (x : α) : q.step (Op.push x) = (q.push x).2 := rfl

theorem step_clear (q : ThreadSafeQueue α) : q.step Op.clear = q.clear := rfl

theorem step_set_shutdown (q : ThreadSafeQueue α) : q.step Op.set_shutdown = q.set_shutdown := rfl

theorem step_try_pop (q : ThreadSafeQueue α) : q.step Op.try_pop = q.try_pop.2 := by
  simp only [step, exec]
  rcases h : q.try_pop with ⟨_ | x, q'⟩ <;> rfl

theorem step_pop (q : ThreadSafeQueue α) :
    q.step Op.pop = match q.pop with
      | none => q
      | some r => r.2 := by
  simp only [step, exec]
  rcases h : q.pop with _ | ⟨_ | x, q'⟩ <;> rfl

/-- No call changes the capacity. -/
theorem step_max_size (q : ThreadSafeQueue α) (op : Op α) :
    (q.step op).max_size = q.max_size := by
  cases op
  · rw [step_push]; unfold push; split_ifs <;> rfl
  · rw [step_pop]; unfold pop; split_ifs <;> rfl
  · rw [step_try_pop]; unfold try_pop; split_ifs <;> rfl
  · rfl
  · rfl

/-- No call makes the queue longer than its capacity. -/
theorem step_length_le (q : ThreadSafeQueue α) (op : Op α)
    (h : q.queue.length ≤ q.max_size) : (q.step op).queue.length ≤ q.max_size := by
  cases op
  · rw [step_push]; unfold push
    split_ifs with h1 h2
    · exact h
    · exact h
    · simp only [List.length_append, List.length_singleton]; omega
  · rw [step_pop]; unfold pop
    split_ifs
    · exact h
    · exact h
    · simp only [List.length_tail]; omega
  · rw [step_try_pop]; unfold try_pop
    split_ifs
    · exact h
    · exact h
    · simp only [List.length_tail]; omega
  · simp [step_clear, clear]
  · exact h

theorem run_max_size (q : ThreadSafeQueue α) (ops : List (Op α)) :
    (q.run ops).max_size = q.max_size := by
  induction ops generalizing q with
  | nil => rfl
  | cons op ops ih =>
    show ((q.step op).run ops).max_size = _
    rw [ih, step_max_size]

theorem run_length_le (q : ThreadSafeQueue α) (ops : List (Op α))
    (h : q.queue.length ≤ q.max_size) : (q.run ops).queue.length ≤ q.max_size := by
  induction ops generalizing q with
  | nil => exact h
  | cons op ops ih =>
    show ((q.step op).run ops).queue.length ≤ _
    have h1 := step_length_le q op h
    have h2 := ih (q.step op) (by rw [step_max_size]; exact h1)
    rwa [step_max_size] at h2

/-- No call clears the shutdown flag. -/
theorem step_shutdown (q : ThreadSafeQueue α) (op : Op α) (h : q.shutdown = true) :
    (q.step op).shutdown = true := by
  cases op
  · rw [step_push]; unfold push; split_ifs; exact h
  · rw [step_pop]; unfold pop; split_ifs <;> exact h
  · rw [step_try_pop]; unfold try_pop; split_ifs <;> exact h
  · exact h
  · rfl

theorem run_shutdown (q : ThreadSafeQueue α) (ops : List (Op α)) (h : q.shutdown = true) :
    (q.run ops).shutdown = true := by
  induction ops generalizing q with
  | nil => exact h
  | cons op ops ih => exact ih (q.step op) (step_shutdown q op h)

/-- C1: `push(x)` returns false exactly when the queue is shut down or holds at
least `max_size` items, and then leaves the queue state unchanged; otherwise
it returns true, the new contents are the old ones with `x` appended at the
tail, the size grows by exactly one and flag and capacity are unchanged. -/
theorem push_contract (q : ThreadSafeQueue α) (x : α) :
    ((q.push x).1 = false ↔ (q.shutdown = true ∨ q.queue.length ≥ q.max_size)) ∧
    ((q.push x).1 = false → (q.push x).2 = q) ∧
    ((q.push x).1 = true →
      (q.push x).2.queue = q.queue ++ [x] ∧ (q.push x).2.size = q.size + 1 ∧
      (q.push x).2.shutdown = q.shutdown ∧ (q.push x).2.max_size = q.max_size) := by
  unfold push
  split_ifs with h1 h2
  · simp [h1]
  · simp [h2]
  · refine ⟨by simp [h1]; omega, by simp, fun _ => ⟨rfl, by simp [size], rfl, rfl⟩⟩

theorem push_contract_witness :
    ((init 1 : ThreadSafeQueue Nat).push 7).2.queue = [7] ∧
    ((init 1 : ThreadSafeQueue Nat).push 7).2.size = 1 ∧
    (ThreadSafeQueue.mk [7] false 1).push 8 = (false, ThreadSafeQueue.mk [7] false 1) ∧
    (ThreadSafeQueue.mk [] true 1).push 8 = (false, ThreadSafeQueue.mk [] true 1) :=
  have h1 := (push_contract (init 1 : ThreadSafeQueue Nat) 7).2.2 (by decide)
  ⟨h1.1, h1.2.1,
    Prod.ext (by decide) ((push_contract (ThreadSafeQueue.mk [7] false 1) 8).2.1 (by decide)),
    Prod.ext (by decide) ((push_contract (ThreadSafeQueue.mk [] true 1) 8).2.1 (by decide))⟩

/-- C2: capacity invariant.  Starting from a freshly constructed queue of
capacity `c`, after every call of every finite sequence of `push`, `pop`,
`try_pop`, `clear` and `set_shutdown` calls (that is, after every initial
segment `ops.take k` of the sequence) the queue holds at most `c` items. -/
theorem capacity_invariant (c : Nat) (ops : List (Op α)) (k : Nat) :
    ((init c : ThreadSafeQueue α).run (ops.take k)).size ≤ c := by
  have h := run_length_le (init c : ThreadSafeQueue α) (ops.take k) (Nat.zero_le _)
  exact h

theorem exec_consistent (st : ThreadSafeQueue α × Log α) (op : Op α)
    (hop : op ≠ Op.clear) (h : Log.Consistent st) : Log.Consistent (exec st op) := by
  obtain ⟨q, log⟩ := st
  unfold Log.Consistent at h ⊢
  simp only at h
  cases op with
  | push x =>
    by_cases h1 : q.shutdown = true
    · simpa [exec, push, h1] using h
    · by_cases h2 : q.queue.length ≥ q.max_size
      · simpa [exec, push, h1, h2] using h
      · simp [exec, push, h1, h2, ← h]
  | pop =>
    simp only [exec, pop]
    split_ifs with h1 h2
    · simpa using h
    · simpa using h
    · rcases hq : q.queue with _ | ⟨y, rest⟩
      · simp [hq] at h ⊢; exact h
      · simp [hq] at h ⊢; exact h
  | try_pop =>
    simp only [exec, try_pop]
    split_ifs with h1 h2
    · simpa using h
    · simpa using h
    · rcases hq : q.queue with _ | ⟨y, rest⟩
      · simp [hq] at h ⊢; exact h
      · simp [hq] at h ⊢; exact h
  | clear => exact absurd rfl hop
  | set_shutdown => simpa [exec, set_shutdown] using h

theorem runLog_consistent (st : ThreadSafeQueue α × Log α) (ops : List (Op α))
    (hops : Op.clear ∉ ops) (h : Log.Consistent st) : Log.Consistent (runLog st ops) := by
  induction ops generalizing st with
  | nil => exact h
  | cons op ops ih =>
    simp only [List.mem_cons, not_or] at hops
    exact ih (exec st op) hops.2 (exec_consistent st op (fun e => hops.1 e.symm) h)

/-- Pushing a batch that fits into an open queue accepts every item. -/
theorem runLog_push_all (q : ThreadSafeQueue α) (log : Log α) (xs : List α)
    (hs : q.shutdown = false) (hfit : q.queue.length + xs.length ≤ q.max_size) :
    runLog (q, log) (xs.map Op.push) =
      ({ q with queue := q.queue ++ xs }, { log with accepted := log.accepted ++ xs }) := by
  induction xs generalizing q log with
  | nil => simp [runLog]
  | cons x xs ih =>
    simp only [List.length_cons] at hfit
    have hlt : ¬ q.queue.length ≥ q.max_size := by omega
    have hstep : exec (q, log) (Op.push x) =
        ({ q with queue := q.queue ++ [x] }, { log with accepted := log.accepted ++ [x] }) := by
      simp [exec, push, hs, hlt]
    show runLog (exec (q, log) (Op.push x)) (xs.map Op.push) = _
    rw [hstep, ih { q with queue := q.queue ++ [x] } { log with accepted := log.accepted ++ [x] }
      hs (by simp only [List.length_append, List.length_singleton]; omega)]
    simp

/-- Popping as many times as there are stored items hands them out front
first and empties the queue. -/
theorem runLog_pop_all (q : ThreadSafeQueue α) (log : Log α) :
    runLog (q, log) (List.replicate q.queue.length Op.pop) =
      ({ q with queue := [] }, { log with popped := log.popped ++ q.queue }) := by
  obtain ⟨items, s, c⟩ := q
  induction items generalizing log with
  | nil => simp [runLog]
  | cons x xs ih =>
    have hstep : exec (ThreadSafeQueue.mk (x :: xs) s c, log) Op.pop =
        (ThreadSafeQueue.mk xs s c, { log with popped := log.popped ++ [x] }) := by
      simp [exec, pop, ready]
    show runLog (exec (ThreadSafeQueue.mk (x :: xs) s c, log) Op.pop)
      (List.replicate xs.length Op.pop) = _
    rw [hstep, ih]
    simp

/-- C3: FIFO.  For every sequence of calls without `clear` on a freshly
constructed queue, the items handed out by successful pops, followed by the
items still stored, are exactly the items whose push returned true, in the
same order; so the popped sequence is an initial segment of the accepted
sequence.  In particular pushing `x1..xn` into a queue of capacity at least `n`
accepts all of them, and `n` pops then return `x1..xn` in that order and leave
the queue empty. -/
theorem fifo_order (c : Nat) :
    (∀ ops : List (Op α), Op.clear ∉ ops →
      (runLog (init c, Log.mk [] []) ops).2.popped ++ (runLog (init c, Log.mk [] []) ops).1.queue
          = (runLog (init c, Log.mk [] []) ops).2.accepted ∧
      (runLog (init c, Log.mk [] []) ops).2.popped <+:
        (runLog (init c, Log.mk [] []) ops).2.accepted) ∧
    (∀ xs : List α, xs.length ≤ c →
      runLog (init c, Log.mk [] []) (xs.map Op.push ++ List.replicate xs.length Op.pop)
        = (init c, Log.mk xs xs)) := by
  refine ⟨fun ops hops => ?_, fun xs hxs => ?_⟩
  · have h := runLog_consistent (init c, Log.mk [] []) ops hops rfl
    exact ⟨h, ⟨_, h⟩⟩
  · have h1 := runLog_push_all (init c : ThreadSafeQueue α) (Log.mk [] []) xs rfl
      (by simpa [init] using hxs)
    have h2 := runLog_pop_all ({ (init c : ThreadSafeQueue α) with queue := [] ++ xs })
      (Log.mk ([] ++ xs) [])
    simp only [List.nil_append, runLog, init] at h1 h2
    simp only [runLog, List.foldl_append, init]
    rw [h1, h2]

theorem fifo_order_witness :
    (runLog (init 2, Log.mk [] [])
        [Op.push 1, Op.pop, Op.push 2, Op.push 3, Op.push 4, Op.pop, Op.set_shutdown,
          Op.push 5, Op.try_pop, Op.pop]).2.popped <+:
      (runLog (init 2, Log.mk [] [])
        [Op.push 1, Op.pop, Op.push 2, Op.push 3, Op.push 4, Op.pop, Op.set_shutdown,
          Op.push 5, Op.try_pop, Op.pop]).2.accepted ∧
    runLog (init 3, Log.mk [] [])
        ([10, 20, 30].map Op.push ++ List.replicate [10, 20, 30].length Op.pop)
      = (init 3, Log.mk [10, 20, 30] [10, 20, 30]) :=
  ⟨((@fifo_order Nat 2).1 _ (by decide)).2, (@fifo_order Nat 3).2 [10, 20, 30] (by decide)⟩

theorem pop_of_shutdown_empty (q : ThreadSafeQueue α) (hs : q.shutdown = true) (he : q.queue = []) :
    q.pop = some (none, q) := by
  simp [pop, ready, hs, he]

/-- C4: `pop` returns "no item" exactly when the queue is shut down and empty,
and then leaves the queue unchanged; it stays blocked exactly when the queue
is empty and not shut down; whenever the queue is non-empty, shut down or not,
it returns the front item and removes exactly that item.  Hence the items
stored when shutdown is signalled are all still delivered, in order, by the
pops that follow. -/
theorem pop_contract (q : ThreadSafeQueue α) :
    ((∃ q', q.pop = some (none, q')) ↔ (q.shutdown = true ∧ q.queue = [])) ∧
    (q.shutdown = true → q.queue = [] → q.pop = some (none, q)) ∧
    (q.pop = none ↔ (q.shutdown = false ∧ q.queue = [])) ∧
    (∀ x rest, q.queue = x :: rest → q.pop = some (some x, { q with queue := rest })) ∧
    runLog (q.set_shutdown, Log.mk [] []) (List.replicate q.queue.length Op.pop)
      = ({ q.set_shutdown with queue := [] }, Log.mk [] q.queue) := by
  obtain ⟨items, s, c⟩ := q
  refine ⟨?_, ?_, ?_, ?_, ?_⟩
  · cases items <;> cases s <;> simp [pop, ready]
  · rintro hs hq
    simp only at hs hq
    subst hs hq
    rfl
  · cases items <;> cases s <;> simp [pop, ready]
  · rintro x rest hq
    simp only at hq
    subst hq
    cases s <;> simp [pop, ready]
  · have h := runLog_pop_all (set_shutdown (ThreadSafeQueue.mk items s c)) (Log.mk [] [])
    simpa [set_shutdown] using h

theorem pop_contract_witness :
    (ThreadSafeQueue.mk ([] : List Nat) true 4).pop
      = some (none, ThreadSafeQueue.mk [] true 4) ∧
    (ThreadSafeQueue.mk [5, 6] true 4).pop = some (some 5, ThreadSafeQueue.mk [6] true 4) ∧
    (ThreadSafeQueue.mk [5, 6] false 4).pop = some (some 5, ThreadSafeQueue.mk [6] false 4) :=
  ⟨(pop_contract (ThreadSafeQueue.mk ([] : List Nat) true 4)).2.1 rfl rfl,
    (pop_contract (ThreadSafeQueue.mk [5, 6] true 4)).2.2.2.1 5 [6] rfl,
    (pop_contract (ThreadSafeQueue.mk [5, 6] false 4)).2.2.2.1 5 [6] rfl⟩

/-- C5: `set_shutdown` is idempotent, keeps the stored items and the capacity,
and is irreversible: after it, whatever sequence of `push`, `pop`, `try_pop`,
`clear` and `set_shutdown` calls follows, the flag is still set and every
`push` returns false without changing the queue. -/
theorem set_shutdown_idempotent_irreversible (q : ThreadSafeQueue α) :
    q.set_shutdown.set_shutdown = q.set_shutdown ∧
    q.set_shutdown.queue = q.queue ∧
    q.set_shutdown.max_size = q.max_size ∧
    q.set_shutdown.shutdown = true ∧
    ∀ (ops : List (Op α)) (x : α),
      (q.set_shutdown.run ops).shutdown = true ∧
      ((q.set_shutdown.run ops).push x).1 = false ∧
      ((q.set_shutdown.run ops).push x).2 = q.set_shutdown.run ops := by
  refine ⟨rfl, rfl, rfl, rfl, fun ops x => ?_⟩
  have h : (q.set_shutdown.run ops).shutdown = true := run_shutdown _ ops rfl
  refine ⟨h, ?_, ?_⟩ <;> simp [push, h]

end ThreadSafeQueue

/-! ## RoutingTable -/

namespace RoutingTable

theorem find_assign_self (l : List (Nat × Int)) (k : Nat) (p : Int) :
    find (assign l k p) k = some p := by
  induction l with
  | nil => simp [assign, find]
  | cons e es ih =>
    by_cases h : e.1 = k
    · simp [assign, find, h]
    · simp [assign, find, h, ih]

theorem find_assign_ne (l : List (Nat × Int)) (k k' : Nat) (p : Int) (hk : k' ≠ k) :
    find (assign l k p) k' = find l k' := by
  induction l with
  | nil => simp [assign, find, hk.symm]
  | cons e es ih =>
    by_cases h : e.1 = k
    · have h' : ¬ e.1 = k' := fun e' => hk (e'.symm.trans h)
      simp [assign, find, h, h', hk.symm]
    · by_cases h2 : e.1 = k'
      · simp only [assign, find, if_neg h, if_pos h2]
      · simp only [assign, find, if_neg h, if_neg h2, ih]

theorem length_assign (l : List (Nat × Int)) (k : Nat) (p : Int) :
    (assign l k p).length = if (find l k).isSome then l.length else l.length + 1 := by
  induction l with
  | nil => simp [assign, find]
  | cons e es ih =>
    by_cases h : e.1 = k
    · simp [assign, find, h]
    · simp only [assign, find, h, if_false, List.length_cons, ih]
      split_ifs <;> rfl

theorem find_erase_self (l : List (Nat × Int)) (k : Nat) : find (erase l k) k = none := by
  induction l with
  | nil => rfl
  | cons e es ih =>
    by_cases h : e.1 = k
    · simp [erase, h, ih]
    · simp [erase, find, h, ih]

theorem find_erase_ne (l : List (Nat × Int)) (k k' : Nat) (hk : k' ≠ k) :
    find (erase l k) k' = find l k' := by
  induction l with
  | nil => rfl
  | cons e es ih =>
    by_cases h : e.1 = k
    · have h' : ¬ e.1 = k' := fun e' => hk (e'.symm.trans h)
      simp only [erase, find, if_pos h, if_neg h', ih]
    · by_cases h2 : e.1 = k'
      · simp only [erase, find, if_neg h, if_pos h2]
      · simp only [erase, find, if_neg h, if_neg h2, ih]

theorem length_erase_le (l : List (Nat × Int)) (k : Nat) : (erase l k).length ≤ l.length := by
  induction l with
  | nil => simp [erase]
  | cons e es ih =>
    by_cases h : e.1 = k
    · simp only [erase, h, if_true, List.length_cons]; omega
    · simp only [erase, h, if_false, List.length_cons]; omega

theorem length_erase_lt_iff (l : List (Nat × Int)) (k : Nat) :
    (erase l k).length < l.length ↔ (find l k).isSome = true := by
  induction l with
  | nil => simp [erase, find]
  | cons e es ih =>
    by_cases h : e.1 = k
    · have := length_erase_le es k
      simp only [erase, find, h, if_true, List.length_cons, Option.isSome_some, iff_true]
      omega
    · simp only [erase, find, h, if_false, List.length_cons, ← ih]
      omega

/-- C6: `add_route` is a point update with last write wins.  After
`add_route(k, p)`, `lookup(k)` returns `p` whatever `k` mapped to before,
`lookup(k')` is unchanged for every `k' ≠ k`, and `size()` is unchanged if `k`
had a route and one larger if it had none. -/
theorem add_route_point_update (t : RoutingTable) (k k' : Nat) (p : Int) :
    (t.add_route k p).lookup k = p ∧
    (k' ≠ k → (t.add_route k p).lookup k' = t.lookup k') ∧
    (t.has_route k = true → (t.add_route k p).size = t.size) ∧
    (t.has_route k = false → (t.add_route k p).size = t.size + 1) := by
  refine ⟨?_, fun hk => ?_, fun h => ?_, fun h => ?_⟩
  · simp [lookup, add_route, find_assign_self]
  · simp [lookup, add_route, find_assign_ne _ _ _ _ hk]
  · simp only [has_route] at h
    simp [size, add_route, length_assign, h]
  · simp only [has_route] at h
    simp [size, add_route, length_assign, h]

theorem add_route_point_update_witness :
    ((RoutingTable.mk [(1, 5), (2, 6)]).add_route 1 (-1)).lookup 1 = -1 ∧
    ((RoutingTable.mk [(1, 5), (2, 6)]).add_route 1 7).lookup 2 = 6 ∧
    ((RoutingTable.mk [(1, 5), (2, 6)]).add_route 1 7).size = 2 ∧
    ((RoutingTable.mk [(1, 5), (2, 6)]).add_route 3 7).size = 3 :=
  ⟨(add_route_point_update (RoutingTable.mk [(1, 5), (2, 6)]) 1 2 (-1)).1,
    (add_route_point_update (RoutingTable.mk [(1, 5), (2, 6)]) 1 2 7).2.1 (by decide),
    (add_route_point_update (RoutingTable.mk [(1, 5), (2, 6)]) 1 2 7).2.2.1 (by decide),
    (add_route_point_update (RoutingTable.mk [(1, 5), (2, 6)]) 3 2 7).2.2.2 (by decide)⟩

/-- C7: `remove_route(k)` returns true if and only if the table had a route for
`k` before the call; afterwards the table has no route for `k`, `lookup(k)`
returns the sentinel `-1`, and `lookup` of every other key is unchanged.
`lookup` is total, and on a key without a route it returns `-1`. -/
theorem remove_route_contract (t : RoutingTable) (k k' : Nat) :
    ((t.remove_route k).1 = true ↔ t.has_route k = true) ∧
    (t.remove_route k).2.has_route k = false ∧
    (t.remove_route k).2.lookup k = -1 ∧
    (k' ≠ k → (t.remove_route k).2.lookup k' = t.lookup k') ∧
    (t.has_route k' = false → t.lookup k' = -1) := by
  refine ⟨?_, ?_, ?_, fun hk => ?_, fun h => ?_⟩
  · have h1 := length_erase_lt_iff t.routes k
    have h2 := length_erase_le t.routes k
    simp only [remove_route, has_route, decide_eq_true_eq, ← h1]
    omega
  · simp [remove_route, has_route, find_erase_self]
  · simp [remove_route, lookup, find_erase_self]
  · simp [remove_route, lookup, find_erase_ne _ _ _ hk]
  · simp only [has_route] at h
    cases hf : find t.routes k' with
    | none => simp [lookup, hf]
    | some v => simp [hf] at h

theorem remove_route_contract_witness :
    ((RoutingTable.mk [(1, 5), (2, 6)]).remove_route 1).2.lookup 2 = 6 ∧
    (RoutingTable.mk [(1, 5), (2, 6)]).lookup 9 = -1 :=
  ⟨(remove_route_contract (RoutingTable.mk [(1, 5), (2, 6)]) 1 2).2.2.2.1 (by decide),
    (remove_route_contract (RoutingTable.mk [(1, 5), (2, 6)]) 1 9).2.2.2.2 (by decide)⟩

end RoutingTable

/-! ## RoutingCore and Statistics counters -/

namespace RoutingCore

/-- On the counts: one `process_packet` call adds 1 to `total_packets` and to
exactly one of `packets_forwarded`, `congestion_drops`, `no_route_drops`, and
adds 1 to `packets_dropped` with either of the two drop counts. -/
theorem process_packet_one_outcome (core : RoutingCore) (input_queue : ThreadSafeQueue Packet)
    (routing_table : RoutingTable) (now_us : Nat) (stats : Statistics) (packet : Packet) :
    (process_packet core input_queue routing_table now_us stats packet).2.1.total_packets
      = stats.total_packets + 1 ∧
    (((process_packet core input_queue routing_table now_us stats packet).2.1.packets_forwarded
          = stats.packets_forwarded + 1 ∧
        (process_packet core input_queue routing_table now_us stats packet).2.1.congestion_drops
          = stats.congestion_drops ∧
        (process_packet core input_queue routing_table now_us stats packet).2.1.no_route_drops
          = stats.no_route_drops ∧
        (process_packet core input_queue routing_table now_us stats packet).2.1.packets_dropped
          = stats.packets_dropped) ∨
      ((process_packet core input_queue routing_table now_us stats packet).2.1.packets_forwarded
          = stats.packets_forwarded ∧
        (process_packet core input_queue routing_table now_us stats packet).2.1.congestion_drops
          = stats.congestion_drops + 1 ∧
        (process_packet core input_queue routing_table now_us stats packet).2.1.no_route_drops
          = stats.no_route_drops ∧
        (process_packet core input_queue routing_table now_us stats packet).2.1.packets_dropped
          = stats.packets_dropped + 1) ∨
      ((process_packet core input_queue routing_table now_us stats packet).2.1.packets_forwarded
          = stats.packets_forwarded ∧
        (process_packet core input_queue routing_table now_us stats packet).2.1.congestion_drops
          = stats.congestion_drops ∧
        (process_packet core input_queue routing_table now_us stats packet).2.1.no_route_drops
          = stats.no_route_drops + 1 ∧
        (process_packet core input_queue routing_table now_us stats packet).2.1.packets_dropped
          = stats.packets_dropped + 1)) := by
  unfold process_packet
  simp only
  split_ifs with h1 h2
  · exact ⟨rfl, Or.inr (Or.inl ⟨rfl, rfl, rfl, rfl⟩)⟩
  · exact ⟨rfl, Or.inr (Or.inr ⟨rfl, rfl, rfl, rfl⟩)⟩
  · exact ⟨rfl, Or.inl ⟨rfl, rfl, rfl, rfl⟩⟩

theorem inc64_of_lt (x : Nat) (h : x < 2 ^ 64 - 1) : inc64 x = x + 1 := by
  unfold inc64
  exact Nat.mod_eq_of_lt (by omega)

theorem inc64_max : inc64 (2 ^ 64 - 1) = 0 := by decide

theorem inc64_eq_mod (x : Nat) (h : x < 2 ^ 64) : inc64 x = (x + 1) % 2 ^ 64 ∧ x % 2 ^ 64 = x :=
  ⟨rfl, Nat.mod_eq_of_lt h⟩

/-- The stored counter values after a call are the counts after the call
modulo `2^64`. -/
theorem process_packet_u64_eq_wrap (core : RoutingCore) (input_queue : ThreadSafeQueue Packet)
    (routing_table : RoutingTable) (now_us : Nat) (stats : Statistics) (packet : Packet)
    (hs : stats.IsU64) :
    process_packet_u64 core input_queue routing_table now_us stats packet
      = ({ (process_packet core input_queue routing_table now_us stats packet).1 with
            packets_processed :=
              (process_packet core input_queue routing_table now_us stats
                packet).1.packets_processed % 2 ^ 64 },
          (process_packet core input_queue routing_table now_us stats packet).2.1.wrap64,
          (process_packet core input_queue routing_table now_us stats packet).2.2) := by
  obtain ⟨h1, h2, h3, h4, h5⟩ := hs
  unfold process_packet_u64 process_packet
  simp only
  split_ifs <;>
    simp only [Statistics.wrap64, Statistics.record_latency, inc64, Nat.mod_eq_of_lt h1,
      Nat.mod_eq_of_lt h2, Nat.mod_eq_of_lt h3, Nat.mod_eq_of_lt h4, Nat.mod_eq_of_lt h5]

/-- C9, as the code has it: a counter at `2^64 - 1` wraps to `0` instead of
growing by one. -/
theorem total_packets_wraps :
    (process_packet_u64 (init 0) (ThreadSafeQueue.init 10000) (RoutingTable.init.add_route 0 1) 5
        { Statistics.init with total_packets := 2 ^ 64 - 1, packets_forwarded := 2 ^ 64 - 1 }
        Packet.default).2.1.total_packets = 0 ∧
    (process_packet_u64 (init 0) (ThreadSafeQueue.init 10000) (RoutingTable.init.add_route 0 1) 5
        { Statistics.init with total_packets := 2 ^ 64 - 1, packets_forwarded := 2 ^ 64 - 1 }
        Packet.default).2.1.packets_forwarded = 0 ∧
    (process_packet_u64 (init 0) (ThreadSafeQueue.init 10000) (RoutingTable.init.add_route 0 1) 5
        { Statistics.init with total_packets := 2 ^ 64 - 1, packets_forwarded := 2 ^ 64 - 1 }
        Packet.default).2.1.total_packets ≠ (2 ^ 64 - 1) + 1 := by
  decide

/-- C9 (amended): exactly one terminal outcome per packet.  For every packet,
routing table, queue depth and statistics state, one `process_packet` call
increments `total_packets` and exactly one of `packets_forwarded`,
`congestion_drops`, `no_route_drops`, leaving the other two unchanged, and
increments `packets_dropped` exactly when the incremented counter is one of the
two drop counters.  Each increment is the `uint64_t` increment: it adds
exactly 1 to a counter below `2^64 - 1` and takes a counter at `2^64 - 1` to
`0`; so when no counter is at `2^64 - 1` every increment is by exactly 1. -/
theorem process_packet_one_outcome_u64 (core : RoutingCore)
    (input_queue : ThreadSafeQueue Packet) (routing_table : RoutingTable) (now_us : Nat)
    (stats : Statistics) (packet : Packet) :
    (process_packet_u64 core input_queue routing_table now_us stats packet).2.1.total_packets
      = inc64 stats.total_packets ∧
    (((process_packet_u64 core input_queue routing_table now_us stats
          packet).2.1.packets_forwarded = inc64 stats.packets_forwarded ∧
        (process_packet_u64 core input_queue routing_table now_us stats
          packet).2.1.congestion_drops = stats.congestion_drops ∧
        (process_packet_u64 core input_queue routing_table now_us stats
          packet).2.1.no_route_drops = stats.no_route_drops ∧
        (process_packet_u64 core input_queue routing_table now_us stats
          packet).2.1.packets_dropped = stats.packets_dropped) ∨
      ((process_packet_u64 core input_queue routing_table now_us stats
          packet).2.1.packets_forwarded = stats.packets_forwarded ∧
        (process_packet_u64 core input_queue routing_table now_us stats
          packet).2.1.congestion_drops = inc64 stats.congestion_drops ∧
        (process_packet_u64 core input_queue routing_table now_us stats
          packet).2.1.no_route_drops = stats.no_route_drops ∧
        (process_packet_u64 core input_queue routing_table now_us stats
          packet).2.1.packets_dropped = inc64 stats.packets_dropped) ∨
      ((process_packet_u64 core input_queue routing_table now_us stats
          packet).2.1.packets_forwarded = stats.packets_forwarded ∧
        (process_packet_u64 core input_queue routing_table now_us stats
          packet).2.1.congestion_drops = stats.congestion_drops ∧
        (process_packet_u64 core input_queue routing_table now_us stats
          packet).2.1.no_route_drops = inc64 stats.no_route_drops ∧
        (process_packet_u64 core input_queue routing_table now_us stats
          packet).2.1.packets_dropped = inc64 stats.packets_dropped)) ∧
    (∀ x : Nat, x < 2 ^ 64 - 1 → inc64 x = x + 1) ∧
    (∀ x : Nat, x < 2 ^ 64 → inc64 x ≠ x) ∧
    inc64 (2 ^ 64 - 1) = 0 ∧
    (stats.total_packets < 2 ^ 64 - 1 → stats.packets_forwarded < 2 ^ 64 - 1 →
      stats.packets_dropped < 2 ^ 64 - 1 → stats.congestion_drops < 2 ^ 64 - 1 →
      stats.no_route_drops < 2 ^ 64 - 1 →
      (process_packet_u64 core input_queue routing_table now_us stats packet).2.1
        = (process_packet core input_queue routing_table now_us stats packet).2.1) := by
  refine ⟨?_, ?_, inc64_of_lt, fun x hx => ?_, inc64_max, fun h1 h2 h3 h4 h5 => ?_⟩
  · unfold process_packet_u64
    simp only
    split_ifs <;> rfl
  · unfold process_packet_u64
    simp only
    split_ifs with h1 h2
    · exact Or.inr (Or.inl ⟨rfl, rfl, rfl, rfl⟩)
    · exact Or.inr (Or.inr ⟨rfl, rfl, rfl, rfl⟩)
    · exact Or.inl ⟨rfl, rfl, rfl, rfl⟩
  · unfold inc64
    by_cases hmax : x = 2 ^ 64 - 1
    · subst hmax; decide
    · rw [Nat.mod_eq_of_lt (by omega)]; omega
  · unfold process_packet_u64 process_packet
    simp only [inc64_of_lt _ h1, inc64_of_lt _ h2, inc64_of_lt _ h3, inc64_of_lt _ h4,
      inc64_of_lt _ h5]
    split_ifs <;> rfl

theorem process_packet_one_outcome_u64_witness :
    inc64 41 = 41 + 1 ∧ inc64 (2 ^ 64 - 1) ≠ 2 ^ 64 - 1 ∧
    (process_packet_u64 (init 0) (ThreadSafeQueue.init 10000) RoutingTable.init 5
        { Statistics.init with total_packets := 41, packets_dropped := 41, no_route_drops := 41 }
        Packet.default).2.1
      = (process_packet (init 0) (ThreadSafeQueue.init 10000) RoutingTable.init 5
        { Statistics.init with total_packets := 41, packets_dropped := 41, no_route_drops := 41 }
        Packet.default).2.1 :=
  ⟨(process_packet_one_outcome_u64 (init 0) (ThreadSafeQueue.init 10000) RoutingTable.init 5
      Statistics.init Packet.default).2.2.1 41 (by decide),
    (process_packet_one_outcome_u64 (init 0) (ThreadSafeQueue.init 10000) RoutingTable.init 5
      Statistics.init Packet.default).2.2.2.1 (2 ^ 64 - 1) (by decide),
    (process_packet_one_outcome_u64 (init 0) (ThreadSafeQueue.init 10000) RoutingTable.init 5
      { Statistics.init with total_packets := 41, packets_dropped := 41, no_route_drops := 41 }
      Packet.default).2.2.2.2.2 (by decide) (by decide) (by decide) (by decide) (by decide)⟩

end RoutingCore

namespace Router

theorem process_packet_drops_consistent (c : RoutingCore.Call) (s : Statistics)
    (h : s.drops_consistent) :
    (RoutingCore.process_packet c.core c.input_queue c.routing_table c.now_us s
      c.packet).2.1.drops_consistent := by
  unfold Statistics.drops_consistent at h ⊢
  unfold RoutingCore.process_packet
  simp only
  split_ifs with h1 h2
  · simp only; omega
  · simp only; omega
  · simp only [Statistics.record_latency]; omega

theorem count_rejected_drops_consistent (s : Statistics) (h : s.drops_consistent) :
    (count_rejected s).drops_consistent := by
  unfold Statistics.drops_consistent at h ⊢
  simp only [count_rejected]; omega

theorem apply_update_drops_consistent (s : Statistics) (u : Update)
    (h : s.drops_consistent) : (apply_update s u).drops_consistent := by
  cases u with
  | process c => exact process_packet_drops_consistent c s h
  | reset => rfl
  | rejected => exact count_rejected_drops_consistent s h

theorem apply_updates_drops_consistent (s : Statistics) (us : List Update)
    (h : s.drops_consistent) : (apply_updates s us).drops_consistent := by
  induction us generalizing s with
  | nil => exact h
  | cons u us ih => exact ih (apply_update s u) (apply_update_drops_consistent s u h)

/-- C10: the relation `packets_dropped == congestion_drops + no_route_drops`
holds in the initial statistics and is preserved by `process_packet`, by
`Statistics::reset` and by the admission step of `run_simulation` (which counts
a rejected packet in both `packets_dropped` and `congestion_drops`); hence it
holds after every finite sequence of these operations on fresh statistics, in
particular after processing any finite sequence of packets. -/
theorem drops_invariant :
    Statistics.init.drops_consistent ∧
    (∀ (core : RoutingCore) (input_queue : ThreadSafeQueue Packet) (routing_table : RoutingTable)
        (now_us : Nat) (stats : Statistics) (packet : Packet), stats.drops_consistent →
      (RoutingCore.process_packet core input_queue routing_table now_us stats
        packet).2.1.drops_consistent) ∧
    (∀ stats : Statistics, stats.reset.drops_consistent) ∧
    (∀ (r : Router) (packet : Packet), r.stats.drops_consistent →
      (r.admit_or_count packet).stats.drops_consistent) ∧
    (∀ us : List Update, (apply_updates Statistics.init us).drops_consistent) ∧
    (∀ calls : List RoutingCore.Call,
      (RoutingCore.process_all Statistics.init calls).drops_consistent) := by
  refine ⟨rfl, ?_, fun _ => rfl, ?_, ?_, ?_⟩
  · intro core q t now stats packet h
    exact process_packet_drops_consistent ⟨core, q, t, now, packet⟩ stats h
  · intro r packet h
    unfold admit_or_count inject_packet
    simp only
    split_ifs
    · exact count_rejected_drops_consistent _ h
    · exact h
  · intro us
    exact apply_updates_drops_consistent _ us rfl
  · intro calls
    have h := apply_updates_drops_consistent Statistics.init (calls.map Update.process) rfl
    have e : ∀ (s : Statistics) (cs : List RoutingCore.Call),
        apply_updates s (cs.map Update.process) = RoutingCore.process_all s cs := by
      intro s cs
      induction cs generalizing s with
      | nil => rfl
      | cons c cs ih => exact ih _
    rwa [e] at h

theorem drops_invariant_witness :
    (RoutingCore.process_packet (RoutingCore.init 0) (ThreadSafeQueue.init 10000)
      RoutingTable.init 5 Statistics.init Packet.default).2.1.drops_consistent ∧
    (({ Router.init 1 LoadBalancingStrategy.ROUND_ROBIN with
        input_queue := (ThreadSafeQueue.init 10000).set_shutdown }).admit_or_count
      Packet.default).stats.drops_consistent :=
  ⟨drops_invariant.2.1 (RoutingCore.init 0) (ThreadSafeQueue.init 10000) RoutingTable.init 5
      Statistics.init Packet.default (by decide),
    drops_invariant.2.2.2.1
      { Router.init 1 LoadBalancingStrategy.ROUND_ROBIN with
        input_queue := (ThreadSafeQueue.init 10000).set_shutdown }
      Packet.default (by decide)⟩

end Router

/-! ## Percentile of the latency samples -/

namespace Double

theorem excessBits_of_lt (fuel N : Nat) (h : N < 2 ^ 53) : excessBits fuel N = 0 := by
  cases fuel with
  | zero => rfl
  | succ f => rw [excessBits, if_pos h]

/-- With enough fuel, the number of excess bits is `log2 N - 52`. -/
theorem excessBits_eq_log2 (fuel N : Nat) (h : N ≤ fuel) :
    excessBits fuel N = Nat.log2 N - 52 := by
  induction fuel generalizing N with
  | zero =>
    have h0 : N = 0 := by omega
    subst h0
    simp [excessBits, Nat.log2]
  | succ f ih =>
    by_cases hN : N < 2 ^ 53
    · rw [excessBits_of_lt _ _ hN]
      by_cases h0 : N = 0
      · subst h0; simp [Nat.log2]
      · have := (Nat.log2_lt h0).2 hN
        omega
    · have h2 : N ≥ 2 := by
        have : (2 : Nat) ≤ 2 ^ 53 := by norm_num
        omega
      have hhalf : N / 2 ≤ f := by omega
      have hlog : Nat.log2 N = Nat.log2 (N / 2) + 1 := by
        rw [Nat.log2]; simp [h2]
      have hge : 52 ≤ Nat.log2 (N / 2) := by
        have h0 : N / 2 ≠ 0 := by omega
        by_contra hc
        have hlt : Nat.log2 (N / 2) < 52 := by omega
        have := (Nat.log2_lt h0).1 hlt
        have e : (2 : Nat) ^ 53 = 2 * 2 ^ 52 := by norm_num
        omega
      simp only [excessBits, hN, if_false, ih _ hhalf, hlog]
      omega

theorem round53_of_lt (N : Nat) (h : N < 2 ^ 53) : round53 N = N := by
  simp [round53, excessBits_of_lt N N h, Nat.mod_one]

/-- The excess-bit count `s` of `N` places `N` in its binade: `N < 2^(53+s)`,
and `2^(52+s) ≤ N` when `s` is positive. -/
theorem excessBits_spec (N : Nat) :
    N < 2 ^ (53 + excessBits N N) ∧ (0 < excessBits N N → 2 ^ (52 + excessBits N N) ≤ N) := by
  rw [excessBits_eq_log2 N N le_rfl]
  by_cases h0 : N = 0
  · subst h0
    simp [Nat.log2]
  · have h1 : N < 2 ^ (Nat.log2 N + 1) := Nat.lt_log2_self
    have h2 : 2 ^ Nat.log2 N ≤ N := Nat.log2_self_le h0
    constructor
    · exact lt_of_lt_of_le h1 (Nat.pow_le_pow_right (by norm_num) (by omega))
    · intro hs
      have e : 52 + (Nat.log2 N - 52) = Nat.log2 N := by omega
      rw [e]; exact h2

theorem excessBits_mono {N M : Nat} (h : N ≤ M) : excessBits N N ≤ excessBits M M := by
  by_contra hc
  push_neg at hc
  have hN := (excessBits_spec N).2 (by omega)
  have hM := (excessBits_spec M).1
  have : 2 ^ (53 + excessBits M M) ≤ 2 ^ (52 + excessBits N N) :=
    Nat.pow_le_pow_right (by norm_num) (by omega)
  omega

/-- Rounding moves `N` to one of the two neighbouring multiples of `2^s`. -/
theorem round53_bounds (N : Nat) :
    N / 2 ^ excessBits N N * 2 ^ excessBits N N ≤ round53 N ∧
    round53 N ≤ (N / 2 ^ excessBits N N + 1) * 2 ^ excessBits N N := by
  unfold round53
  simp only
  split_ifs
  · exact ⟨le_rfl, Nat.mul_le_mul_right _ (Nat.le_succ _)⟩
  · exact ⟨le_rfl, Nat.mul_le_mul_right _ (Nat.le_succ _)⟩
  · exact ⟨Nat.mul_le_mul_right _ (Nat.le_succ _), le_rfl⟩

/-- Rounding to 53 significant bits is monotone. -/
theorem round53_mono {N M : Nat} (h : N ≤ M) : round53 N ≤ round53 M := by
  have hs := excessBits_mono h
  rcases Nat.lt_or_eq_of_le hs with hlt | heq
  · -- different binades: everything rounds within its own binade
    have hN := (excessBits_spec N).1
    have hM := (excessBits_spec M).2 (by omega)
    have hNq : N / 2 ^ excessBits N N < 2 ^ 53 := by
      rw [Nat.div_lt_iff_lt_mul (Nat.two_pow_pos _), ← pow_add]; exact hN
    have hMq : 2 ^ 52 ≤ M / 2 ^ excessBits M M := by
      rw [Nat.le_div_iff_mul_le (Nat.two_pow_pos _), ← pow_add]; exact hM
    calc round53 N ≤ (N / 2 ^ excessBits N N + 1) * 2 ^ excessBits N N := (round53_bounds N).2
      _ ≤ 2 ^ 53 * 2 ^ excessBits N N := Nat.mul_le_mul_right _ hNq
      _ = 2 ^ (53 + excessBits N N) := (pow_add 2 53 _).symm
      _ ≤ 2 ^ (52 + excessBits M M) := Nat.pow_le_pow_right (by norm_num) (by omega)
      _ = 2 ^ 52 * 2 ^ excessBits M M := pow_add 2 52 _
      _ ≤ M / 2 ^ excessBits M M * 2 ^ excessBits M M := Nat.mul_le_mul_right _ hMq
      _ ≤ round53 M := (round53_bounds M).1
  · -- same binade
    have hq : N / 2 ^ excessBits M M ≤ M / 2 ^ excessBits M M := Nat.div_le_div_right h
    rcases Nat.lt_or_eq_of_le hq with hqlt | hqeq
    · calc round53 N ≤ (N / 2 ^ excessBits N N + 1) * 2 ^ excessBits N N := (round53_bounds N).2
        _ = (N / 2 ^ excessBits M M + 1) * 2 ^ excessBits M M := by rw [heq]
        _ ≤ M / 2 ^ excessBits M M * 2 ^ excessBits M M := Nat.mul_le_mul_right _ hqlt
        _ ≤ round53 M := (round53_bounds M).1
    · have hr : N % 2 ^ excessBits M M ≤ M % 2 ^ excessBits M M := by
        have e1 := Nat.div_add_mod N (2 ^ excessBits M M)
        have e2 := Nat.div_add_mod M (2 ^ excessBits M M)
        rw [hqeq] at e1
        omega
      unfold round53
      simp only [heq, hqeq]
      split_ifs <;> first
        | exact le_rfl
        | exact Nat.mul_le_mul_right _ (Nat.le_succ _)
        | (exfalso; omega)


theorem round53_two_mul (N : Nat) : round53 (2 * N) = 2 * round53 N := by
  by_cases hlt : 2 * N < 2 ^ 53
  · rw [round53_of_lt _ hlt, round53_of_lt N (by omega)]
  · have hpos : 0 < 2 * N := by
      have : (0 : Nat) < 2 ^ 53 := Nat.two_pow_pos _
      omega
    obtain ⟨f, hf⟩ : ∃ f, 2 * N = f + 1 := ⟨2 * N - 1, by omega⟩
    have hs : excessBits (2 * N) (2 * N) = excessBits N N + 1 := by
      have hdiv : 2 * N / 2 = N := by omega
      conv_lhs => rw [hf]
      rw [excessBits, ← hf, if_neg hlt, hdiv, excessBits_eq_log2 f N (by omega),
        excessBits_eq_log2 N N le_rfl]
    have hp : (2 : Nat) ^ (excessBits N N + 1) = 2 * 2 ^ excessBits N N := by
      rw [pow_succ, mul_comm]
    have hq : 2 * N / (2 * 2 ^ excessBits N N) = N / 2 ^ excessBits N N :=
      Nat.mul_div_mul_left _ _ (by norm_num)
    have hr : 2 * N % (2 * 2 ^ excessBits N N) = 2 * (N % 2 ^ excessBits N N) :=
      Nat.mul_mod_mul_left _ _ _
    unfold round53
    simp only [hs, hp, hq, hr]
    generalize 2 ^ excessBits N N = P
    generalize N % P = r
    generalize N / P = q
    split_ifs <;> first
      | (exfalso; omega)
      | ring

/-- Rounding commutes with scaling by a power of two. -/
theorem round53_mul_two_pow (N j : Nat) : round53 (N * 2 ^ j) = round53 N * 2 ^ j := by
  induction j with
  | zero => simp
  | succ j ih =>
    have e : N * 2 ^ (j + 1) = 2 * (N * 2 ^ j) := by ring
    rw [e, round53_two_mul, ih]; ring

/-- The order of the denoted rationals, on numerators and exponents. -/
theorem toRat_le_iff (a b : Double) :
    a.toRat ≤ b.toRat ↔ a.num * 2 ^ b.exp ≤ b.num * 2 ^ a.exp := by
  unfold toRat
  have ha : (0 : ℚ) < 2 ^ a.exp := by positivity
  have hb : (0 : ℚ) < 2 ^ b.exp := by positivity
  rw [div_le_div_iff₀ ha hb]
  exact_mod_cast Iff.rfl

/-- The truncated double product with a fixed count is monotone in the other
factor. -/
theorem toSize_mul_ofSize_mono (a b : Double) (n : Nat) (h : a.toRat ≤ b.toRat) :
    toSize (mul a (ofSize n)) ≤ toSize (mul b (ofSize n)) := by
  rw [toRat_le_iff] at h
  simp only [toSize, mul, ofSize, Nat.add_zero]
  have h1 : round53 (a.num * round53 n) * 2 ^ b.exp ≤ round53 (b.num * round53 n) * 2 ^ a.exp := by
    rw [← round53_mul_two_pow, ← round53_mul_two_pow]
    apply round53_mono
    calc a.num * round53 n * 2 ^ b.exp = a.num * 2 ^ b.exp * round53 n := by ring
      _ ≤ b.num * 2 ^ a.exp * round53 n := Nat.mul_le_mul_right _ h
      _ = b.num * round53 n * 2 ^ a.exp := by ring
  rw [Nat.le_div_iff_mul_le (Nat.two_pow_pos _)]
  have h2 : round53 (a.num * round53 n) / 2 ^ a.exp * 2 ^ a.exp ≤ round53 (a.num * round53 n) :=
    Nat.div_mul_le_self _ _
  have h3 : round53 (a.num * round53 n) / 2 ^ a.exp * 2 ^ b.exp * 2 ^ a.exp
      ≤ round53 (b.num * round53 n) * 2 ^ a.exp := by
    calc round53 (a.num * round53 n) / 2 ^ a.exp * 2 ^ b.exp * 2 ^ a.exp
        = round53 (a.num * round53 n) / 2 ^ a.exp * 2 ^ a.exp * 2 ^ b.exp := by ring
      _ ≤ round53 (a.num * round53 n) * 2 ^ b.exp := Nat.mul_le_mul_right _ h2
      _ ≤ round53 (b.num * round53 n) * 2 ^ a.exp := h1
  exact Nat.le_of_mul_le_mul_right h3 (Nat.two_pow_pos _)

theorem toSize_mul_ofSize_exact (p : Double) (n : Nat) (h : p.num * n < 2 ^ 53) :
    toSize (mul p (ofSize n)) = ⌊p.toRat * (n : ℚ)⌋₊ := by
  have hfloor : ⌊p.toRat * (n : ℚ)⌋₊ = p.num * n / 2 ^ p.exp := by
    have e : p.toRat * (n : ℚ) = ((p.num * n : ℕ) : ℚ) / ((2 ^ p.exp : ℕ) : ℚ) := by
      unfold toRat; push_cast; ring
    rw [e, Nat.floor_div_eq_div]
  rw [hfloor]
  by_cases h0 : p.num = 0
  · simp [toSize, mul, ofSize, h0, round53_of_lt]
  · have hn : n < 2 ^ 53 := by
      have : n ≤ p.num * n := Nat.le_mul_of_pos_left n (Nat.pos_of_ne_zero h0)
      omega
    simp [toSize, mul, ofSize, round53_of_lt n hn, round53_of_lt _ h]

/-- The real floor of the exact product, on numerators and exponents. -/
theorem floor_toRat_mul (p : Double) (n : Nat) :
    ⌊p.toRat * (n : ℚ)⌋₊ = p.num * n / 2 ^ p.exp := by
  have e : p.toRat * (n : ℚ) = ((p.num * n : ℕ) : ℚ) / ((2 ^ p.exp : ℕ) : ℚ) := by
    unfold toRat; push_cast; ring
  rw [e, Nat.floor_div_eq_div]

theorem toRat_le_one_iff (p : Double) : p.toRat ≤ 1 ↔ p.num ≤ 2 ^ p.exp := by
  unfold toRat
  have h2 : (0 : ℚ) < 2 ^ p.exp := by positivity
  rw [div_le_one h2]
  exact_mod_cast Iff.rfl

/-- An integer up to `2^53`, scaled by a power of two, is not changed by
rounding. -/
theorem round53_fix (j k : Nat) (h : j ≤ 2 ^ 53) : round53 (j * 2 ^ k) = j * 2 ^ k := by
  rw [round53_mul_two_pow]
  rcases Nat.lt_or_eq_of_le h with hlt | heq
  · rw [round53_of_lt j hlt]
  · subst heq; congr 1

/-- For a percentile at most 1 and a count below `2^53`, the truncated double
product is the real floor of the exact product or the next integer, the latter
exactly when the product rounds up to that integer. -/
theorem toSize_mul_ofSize_bracket (p : Double) (n : Nat) (hp : p.toRat ≤ 1) (hn : n < 2 ^ 53) :
    ⌊p.toRat * (n : ℚ)⌋₊ ≤ toSize (mul p (ofSize n)) ∧
    toSize (mul p (ofSize n)) ≤ ⌊p.toRat * (n : ℚ)⌋₊ + 1 ∧
    (toSize (mul p (ofSize n)) = ⌊p.toRat * (n : ℚ)⌋₊ + 1 ↔
      round53 (p.num * n) = (⌊p.toRat * (n : ℚ)⌋₊ + 1) * 2 ^ p.exp) := by
  rw [floor_toRat_mul]
  rw [toRat_le_one_iff] at hp
  have hpos : 0 < 2 ^ p.exp := Nat.two_pow_pos _
  have hts : toSize (mul p (ofSize n)) = round53 (p.num * n) / 2 ^ p.exp := by
    simp [toSize, mul, ofSize, round53_of_lt n hn]
  rw [hts]
  have hj : p.num * n / 2 ^ p.exp ≤ n := by
    calc p.num * n / 2 ^ p.exp ≤ 2 ^ p.exp * n / 2 ^ p.exp :=
          Nat.div_le_div_right (Nat.mul_le_mul_right _ hp)
      _ = n := Nat.mul_div_cancel_left _ hpos
  have hlo : p.num * n / 2 ^ p.exp * 2 ^ p.exp ≤ p.num * n := Nat.div_mul_le_self _ _
  have hhi : p.num * n ≤ (p.num * n / 2 ^ p.exp + 1) * 2 ^ p.exp := by
    have := Nat.lt_mul_div_succ (p.num * n) hpos
    rw [Nat.mul_comm (2 ^ p.exp)] at this
    exact le_of_lt this
  have h1 := round53_mono hlo
  have h2 := round53_mono hhi
  rw [round53_fix _ _ (by omega)] at h1 h2
  refine ⟨?_, ?_, ?_⟩
  · exact (Nat.le_div_iff_mul_le hpos).2 h1
  · calc round53 (p.num * n) / 2 ^ p.exp
        ≤ (p.num * n / 2 ^ p.exp + 1) * 2 ^ p.exp / 2 ^ p.exp := Nat.div_le_div_right h2
      _ = p.num * n / 2 ^ p.exp + 1 := Nat.mul_div_cancel _ hpos
  · constructor
    · intro h
      have h3 : (p.num * n / 2 ^ p.exp + 1) * 2 ^ p.exp ≤ round53 (p.num * n) := by
        rw [← h]; exact Nat.div_mul_le_self _ _
      exact le_antisymm h2 h3
    · intro h
      rw [h]; exact Nat.mul_div_cancel _ hpos

end Double

namespace Statistics

theorem percentile_index_eq_min (p : Double) (n : Nat) :
    percentile_index p n = min (Double.toSize (Double.mul p (Double.ofSize n))) (n - 1) := by
  unfold percentile_index
  simp only
  split_ifs with h
  · omega
  · omega

/-- The index is monotone in the percentile. -/
theorem percentile_index_mono (a b : Double) (n : Nat) (h : a.toRat ≤ b.toRat) :
    percentile_index a n ≤ percentile_index b n := by
  rw [percentile_index_eq_min, percentile_index_eq_min]
  exact min_le_min (Double.toSize_mul_ofSize_mono a b n h) le_rfl

theorem percentile_index_lt (p : Double) (n : Nat) (hn : 0 < n) : percentile_index p n < n := by
  unfold percentile_index
  simp only
  split_ifs with h
  · omega
  · omega

theorem insertionSort_eq_of_sorted_perm (xs sorted : List Nat) (hp : sorted.Perm xs)
    (hs : sorted.Sorted (· ≤ ·)) : xs.insertionSort (· ≤ ·) = sorted :=
  List.eq_of_perm_of_sorted ((List.perm_insertionSort _ xs).trans hp.symm)
    (List.sorted_insertionSort _ xs) hs

theorem get_percentile_latency_perm (s s' : Statistics) (p : Double)
    (h : s'.latencies.Perm s.latencies) :
    s'.get_percentile_latency p = s.get_percentile_latency p := by
  have hsort : s'.latencies.insertionSort (· ≤ ·) = s.latencies.insertionSort (· ≤ ·) :=
    insertionSort_eq_of_sorted_perm _ _
      ((List.perm_insertionSort _ s.latencies).trans h.symm) (List.sorted_insertionSort _ _)
  have hemp : s'.latencies.isEmpty = s.latencies.isEmpty := by
    have := h.length_eq
    cases h1 : s'.latencies <;> cases h2 : s.latencies <;> simp_all
  unfold get_percentile_latency
  rw [hsort, hemp]

/-- C8, as the code has it: for the double `0.95` and 20 samples the double
product `0.95 * 20` rounds up to `19.0`, so the code takes the element at index
19, while `floor(p * n)` is 18. -/
theorem percentile_rounds_up_at_p95 :
    Double.IsBinary64 Double.p95 ∧
    Double.p95.toRat < 95 / 100 ∧ 95 / 100 - Double.p95.toRat < 1 / 2 ^ 54 ∧
    ({ Statistics.init with latencies :=
        [1, 2, 3, 4, 5, 6, 7, 8, 9, 10, 11, 12, 13, 14, 15, 16, 17, 18, 19, 20]
      }).get_percentile_latency Double.p95 = 20 ∧
    [1, 2, 3, 4, 5, 6, 7, 8, 9, 10, 11, 12, 13, 14, 15, 16, 17, 18, 19, 20][
        min ⌊Double.p95.toRat * ((20 : Nat) : ℚ)⌋₊ (20 - 1)]? = some 19 := by
  refine ⟨by decide, ?_, ?_, by decide, ?_⟩
  · norm_num [Double.toRat, Double.p95]
  · norm_num [Double.toRat, Double.p95]
  · rw [Double.floor_toRat_mul]
    decide

/-- C8 (amended): `get_percentile_latency(p)` returns 0 when there are no
samples and otherwise the element at index `min(i, n - 1)` of the samples
sorted ascending (of the one ascending arrangement `sorted` of the samples),
`n` being the sample count and `i` the truncation of the double-precision
product of `p` and `n`.  For `p` in `[0, 1]` and `n < 2^53`, `i` is
`floor(p * n)` or `floor(p * n) + 1`, the latter exactly when the product
rounds up to that integer; `i = floor(p * n)` whenever the exact product fits
the 53-bit significand.  The result does not depend on the recording order.
For the samples 10, 20, 30, 40, 50, recorded in any order, it is 30 for
`p = 0.5` and 50 for `p = 0.99`. -/
theorem get_percentile_latency_spec (s : Statistics) (p : Double) :
    (s.latencies = [] → s.get_percentile_latency p = 0) ∧
    (∀ sorted : List Nat, sorted.Perm s.latencies → sorted.Sorted (· ≤ ·) →
      s.latencies ≠ [] →
      sorted[min (Double.toSize (Double.mul p (Double.ofSize s.latencies.length)))
          (s.latencies.length - 1)]? = some (s.get_percentile_latency p)) ∧
    (p.toRat ≤ 1 → s.latencies.length < 2 ^ 53 →
      ⌊p.toRat * (s.latencies.length : ℚ)⌋₊
          ≤ Double.toSize (Double.mul p (Double.ofSize s.latencies.length)) ∧
      Double.toSize (Double.mul p (Double.ofSize s.latencies.length))
          ≤ ⌊p.toRat * (s.latencies.length : ℚ)⌋₊ + 1 ∧
      (Double.toSize (Double.mul p (Double.ofSize s.latencies.length))
          = ⌊p.toRat * (s.latencies.length : ℚ)⌋₊ + 1 ↔
        Double.round53 (p.num * s.latencies.length)
          = (⌊p.toRat * (s.latencies.length : ℚ)⌋₊ + 1) * 2 ^ p.exp)) ∧
    (p.num * s.latencies.length < 2 ^ 53 →
      Double.toSize (Double.mul p (Double.ofSize s.latencies.length))
        = ⌊p.toRat * (s.latencies.length : ℚ)⌋₊) ∧
    (∀ s' : Statistics, s'.latencies.Perm s.latencies →
      s'.get_percentile_latency p = s.get_percentile_latency p) ∧
    (∀ s' : Statistics, s'.latencies.Perm [10, 20, 30, 40, 50] →
      s'.get_percentile_latency Double.half = 30 ∧
      s'.get_percentile_latency Double.p99 = 50) := by
  refine ⟨fun h => ?_, fun sorted hp hs hne => ?_, fun hp hn => ?_, fun h => ?_,
    fun s' h => ?_, fun s' h => ?_⟩
  · simp [get_percentile_latency, h]
  · have hsort := insertionSort_eq_of_sorted_perm s.latencies sorted hp hs
    have hlen : sorted.length = s.latencies.length := hp.length_eq
    have hpos : 0 < s.latencies.length := List.length_pos.2 hne
    have hemp : s.latencies.isEmpty = false := by
      cases hl : s.latencies with
      | nil => exact absurd hl hne
      | cons a l => rfl
    have hlt := percentile_index_lt p sorted.length (hlen ▸ hpos)
    simp only [get_percentile_latency, hemp, hsort, Bool.false_eq_true, if_false]
    rw [← percentile_index_eq_min, ← hlen, List.getD_eq_getElem _ _ hlt,
      List.getElem?_eq_getElem hlt]
  · exact Double.toSize_mul_ofSize_bracket p _ hp hn
  · exact Double.toSize_mul_ofSize_exact p _ h
  · exact get_percentile_latency_perm s s' p h
  · have e := fun q => get_percentile_latency_perm
      { Statistics.init with latencies := [10, 20, 30, 40, 50] } s' q h
    rw [e, e]
    exact ⟨by decide, by decide⟩

theorem get_percentile_latency_spec_witness :
    ({ Statistics.init with latencies := [] }).get_percentile_latency Double.p99 = 0 ∧
    [3, 5, 5, 8][min (Double.toSize (Double.mul Double.half (Double.ofSize 4))) (4 - 1)]?
      = some (({ Statistics.init with latencies := [5, 8, 3, 5] }).get_percentile_latency
          Double.half) ∧
    Double.toSize (Double.mul Double.p99 (Double.ofSize 5))
      ≤ ⌊Double.p99.toRat * ((5 : Nat) : ℚ)⌋₊ + 1 ∧
    Double.toSize (Double.mul Double.half (Double.ofSize 5))
      = ⌊Double.half.toRat * ((5 : Nat) : ℚ)⌋₊ ∧
    ({ Statistics.init with latencies := [40, 10, 50, 30, 20] }).get_percentile_latency
      Double.half = 30 ∧
    ({ Statistics.init with latencies := [40, 10, 50, 30, 20] }).get_percentile_latency
      Double.p99 = 50 :=
  ⟨(get_percentile_latency_spec { Statistics.init with latencies := [] } Double.p99).1 rfl,
    (get_percentile_latency_spec { Statistics.init with latencies := [5, 8, 3, 5] }
      Double.half).2.1 [3, 5, 5, 8] (by decide) (by decide) (by decide),
    ((get_percentile_latency_spec { Statistics.init with latencies := [10, 20, 30, 40, 50] }
      Double.p99).2.2.1 ((Double.toRat_le_one_iff Double.p99).2 (by decide))
      (by decide)).2.1,
    (get_percentile_latency_spec { Statistics.init with latencies := [10, 20, 30, 40, 50] }
      Double.half).2.2.2.1 (by decide),
    ((get_percentile_latency_spec Statistics.init Double.half).2.2.2.2.2
      { Statistics.init with latencies := [40, 10, 50, 30, 20] } (by decide)).1,
    ((get_percentile_latency_spec Statistics.init Double.half).2.2.2.2.2
      { Statistics.init with latencies := [40, 10, 50, 30, 20] } (by decide)).2⟩

end Statistics

/-! ## Counter accounting of `process_packet` and of the admission path -/

namespace RoutingCore

theorem process_packet_totals_consistent (core : RoutingCore)
    (input_queue : ThreadSafeQueue Packet) (routing_table : RoutingTable) (now_us : Nat)
    (stats : Statistics) (packet : Packet) (h : stats.totals_consistent) :
    (process_packet core input_queue routing_table now_us stats packet).2.1.totals_consistent := by
  unfold Statistics.totals_consistent at h ⊢
  unfold process_packet
  simp only
  split_ifs with h1 h2
  · simp only; omega
  · simp only; omega
  · simp only [Statistics.record_latency]; omega

theorem process_packet_total_packets (core : RoutingCore)
    (input_queue : ThreadSafeQueue Packet) (routing_table : RoutingTable) (now_us : Nat)
    (stats : Statistics) (packet : Packet) :
    (process_packet core input_queue routing_table now_us stats packet).2.1.total_packets
      = stats.total_packets + 1 := by
  unfold process_packet
  simp only
  split_ifs <;> rfl

theorem sub64_of_le (a b : Nat) (hb : b ≤ a) (ha : a < 2 ^ 64) : sub64 a b = a - b := by
  unfold sub64
  have hb' : b < 2 ^ 64 := by omega
  rw [Nat.mod_eq_of_lt ha, Nat.mod_eq_of_lt hb']
  have e : a + (2 ^ 64 - b) = (a - b) + 2 ^ 64 := by omega
  rw [e, Nat.add_mod_right, Nat.mod_eq_of_lt (by omega)]

/-- C17: latency recording.  `process_packet` stamps `processing_start_time`
with the clock reading.  A packet that is forwarded (queue depth not above the
threshold, lookup returns a port) and whose `arrival_time` is at most the
clock reading (a `uint64_t`) appends exactly one sample, the clock reading
minus `arrival_time`, at the end of the samples and leaves the earlier ones
unchanged; a packet that is dropped for congestion or for no route appends no
sample. -/
theorem latency_recording (core : RoutingCore) (input_queue : ThreadSafeQueue Packet)
    (routing_table : RoutingTable) (now_us : Nat) (stats : Statistics) (packet : Packet) :
    (process_packet core input_queue routing_table now_us stats packet).2.2
      = { packet with processing_start_time := now_us } ∧
    (input_queue.size ≤ CONGESTION_THRESHOLD → routing_table.lookup packet.dest_ip ≠ -1 →
      packet.arrival_time ≤ now_us → now_us < 2 ^ 64 →
      (process_packet core input_queue routing_table now_us stats packet).2.1.latencies
        = stats.latencies ++ [now_us - packet.arrival_time] ∧
      (process_packet core input_queue routing_table now_us stats packet).2.1.packets_forwarded
        = stats.packets_forwarded + 1) ∧
    (input_queue.size > CONGESTION_THRESHOLD ∨ routing_table.lookup packet.dest_ip = -1 →
      (process_packet core input_queue routing_table now_us stats packet).2.1.latencies
        = stats.latencies ∧
      (process_packet core input_queue routing_table now_us stats packet).2.1.packets_forwarded
        = stats.packets_forwarded) := by
  refine ⟨?_, fun h1 h2 h3 h4 => ?_, fun h => ?_⟩
  · unfold process_packet
    simp only
    split_ifs <;> rfl
  · have h1' : ¬ input_queue.size > CONGESTION_THRESHOLD := by omega
    simp only [process_packet, h1', h2, if_false, Statistics.record_latency,
      sub64_of_le now_us packet.arrival_time h3 h4, and_self]
  · unfold process_packet
    simp only
    split_ifs with h1 h2
    · exact ⟨rfl, rfl⟩
    · exact ⟨rfl, rfl⟩
    · rcases h with h | h
      · exact absurd h h1
      · exact absurd h h2

theorem latency_recording_witness :
    (process_packet (init 0) (ThreadSafeQueue.init 10000) (RoutingTable.init.add_route 9 2) 130
        { Statistics.init with latencies := [4] } (Packet.mk4 1 2 9 100)).2.1.latencies
      = [4, 30] ∧
    (process_packet (init 0) (ThreadSafeQueue.init 10000) RoutingTable.init 130
        { Statistics.init with latencies := [4] } (Packet.mk4 1 2 9 100)).2.1.latencies = [4] :=
  ⟨((latency_recording (init 0) (ThreadSafeQueue.init 10000) (RoutingTable.init.add_route 9 2)
      130 { Statistics.init with latencies := [4] } (Packet.mk4 1 2 9 100)).2.1
      (by decide) (by decide) (by decide) (by decide)).1,
    ((latency_recording (init 0) (ThreadSafeQueue.init 10000) RoutingTable.init
      130 { Statistics.init with latencies := [4] } (Packet.mk4 1 2 9 100)).2.2
      (Or.inr (by decide))).1⟩

end RoutingCore

/-! ## Router: admission and conservation -/

namespace Router

theorem count_rejected_breaks_totals (s : Statistics) (h : s.totals_consistent) :
    ¬ (count_rejected s).totals_consistent := by
  unfold Statistics.totals_consistent at h ⊢
  simp only [count_rejected]
  omega

/-- C11: the relation `total_packets == packets_forwarded + packets_dropped`
holds in the initial statistics and is preserved by `process_packet`, by
`Statistics::reset` and by an accepted admission; but the accounting of a
rejected admission in `run_simulation` increments `packets_dropped` without
`total_packets`, so every rejected admission breaks the relation. -/
theorem totals_invariant_except_rejected_admission :
    Statistics.init.totals_consistent ∧
    (∀ (core : RoutingCore) (input_queue : ThreadSafeQueue Packet) (routing_table : RoutingTable)
        (now_us : Nat) (stats : Statistics) (packet : Packet), stats.totals_consistent →
      (RoutingCore.process_packet core input_queue routing_table now_us stats
        packet).2.1.totals_consistent) ∧
    (∀ stats : Statistics, stats.reset.totals_consistent) ∧
    (∀ (r : Router) (packet : Packet), r.stats.totals_consistent →
      (r.inject_packet packet).1 = true → (r.admit_or_count packet).stats.totals_consistent) ∧
    (∀ (r : Router) (packet : Packet), r.stats.totals_consistent →
      (r.inject_packet packet).1 = false →
      ¬ (r.admit_or_count packet).stats.totals_consistent ∧
      (r.admit_or_count packet).stats.total_packets = r.stats.total_packets ∧
      (r.admit_or_count packet).stats.packets_forwarded = r.stats.packets_forwarded ∧
      (r.admit_or_count packet).stats.packets_dropped = r.stats.packets_dropped + 1) := by
  refine ⟨rfl, ?_, fun _ => rfl, ?_, ?_⟩
  · intro core q t now stats packet h
    exact RoutingCore.process_packet_totals_consistent core q t now stats packet h
  · intro r packet h hacc
    simp only [admit_or_count, hacc, Bool.not_true, Bool.false_eq_true, if_false]
    exact h
  · intro r packet h hrej
    simp only [admit_or_count, hrej, Bool.not_false, if_true]
    exact ⟨count_rejected_breaks_totals _ h, rfl, rfl, rfl⟩

theorem totals_invariant_except_rejected_admission_witness :
    ¬ (({ Router.init 1 LoadBalancingStrategy.ROUND_ROBIN with
          input_queue := ThreadSafeQueue.mk (List.replicate 10000 Packet.default) false 10000
        }).admit_or_count Packet.default).stats.totals_consistent ∧
    ¬ ((Router.init 1 LoadBalancingStrategy.ROUND_ROBIN).stop.admit_or_count
        Packet.default).stats.totals_consistent ∧
    ((Router.init 1 LoadBalancingStrategy.ROUND_ROBIN).admit_or_count
        Packet.default).stats.totals_consistent :=
  ⟨(totals_invariant_except_rejected_admission.2.2.2.2
      { Router.init 1 LoadBalancingStrategy.ROUND_ROBIN with
        input_queue := ThreadSafeQueue.mk (List.replicate 10000 Packet.default) false 10000 }
      Packet.default (by decide)
      (by simp only [inject_packet, ThreadSafeQueue.push, List.length_replicate]; decide)).1,
    (totals_invariant_except_rejected_admission.2.2.2.2
      (Router.init 1 LoadBalancingStrategy.ROUND_ROBIN).stop Packet.default
      (by decide) (by decide)).1,
    totals_invariant_except_rejected_admission.2.2.2.1
      (Router.init 1 LoadBalancingStrategy.ROUND_ROBIN) Packet.default (by decide) (by decide)⟩

theorem worker_iteration_max_size (core : RoutingCore) (q : ThreadSafeQueue Packet)
    (t : RoutingTable) (now_us : Nat) (stats : Statistics) :
    (RoutingCore.worker_iteration core q t now_us stats).2.2.1.max_size = q.max_size := by
  unfold RoutingCore.worker_iteration
  split_ifs with hr
  · rfl
  · rcases hp : q.pop with _ | ⟨_ | x, q'⟩
    · rfl
    · have h := ThreadSafeQueue.step_max_size q ThreadSafeQueue.Op.pop
      rw [ThreadSafeQueue.step_pop, hp] at h
      exact h
    · have h := ThreadSafeQueue.step_max_size q ThreadSafeQueue.Op.pop
      rw [ThreadSafeQueue.step_pop, hp] at h
      exact h

theorem act_max_size (st : Router × Nat) (a : Action) :
    (act st a).1.input_queue.max_size = st.1.input_queue.max_size := by
  cases a with
  | inject packet =>
    exact ThreadSafeQueue.step_max_size st.1.input_queue (ThreadSafeQueue.Op.push packet)
  | simulate packet =>
    have h := ThreadSafeQueue.step_max_size st.1.input_queue (ThreadSafeQueue.Op.push packet)
    simp only [act, admit_or_count, inject_packet]
    split_ifs <;> exact h
  | work i now_us =>
    simp only [act, work]
    cases hc : st.1.cores[i]? with
    | none => rfl
    | some core => exact worker_iteration_max_size core _ _ _ _
  | add_route k p => rfl
  | start => rfl
  | stop => rfl
  | set_shutdown => rfl
  | stop_core i => rfl

theorem acts_max_size (st : Router × Nat) (as : List Action) :
    (acts st as).1.input_queue.max_size = st.1.input_queue.max_size := by
  induction as generalizing st with
  | nil => rfl
  | cons a as ih =>
    show (acts (act st a) as).1.input_queue.max_size = _
    rw [ih, act_max_size]

/-- C12: `inject_packet` returns exactly the result of pushing the packet onto
the input queue and changes nothing but the queue: the five counters, the
latency samples, the routing table and the cores are as before, whether the
packet was accepted or rejected.  The queue of a router built by the
constructor has capacity 10000 in every state the router reaches, so the call
returns true iff the queue is not shut down and holds fewer than 10000
packets. -/
theorem inject_packet_frame (r : Router) (packet : Packet) :
    (r.inject_packet packet).1 = (r.input_queue.push packet).1 ∧
    (r.inject_packet packet).2.input_queue = (r.input_queue.push packet).2 ∧
    (r.inject_packet packet).2.stats = r.stats ∧
    (r.inject_packet packet).2.routing_table = r.routing_table ∧
    (r.inject_packet packet).2.cores = r.cores ∧
    (r.input_queue.max_size = 10000 →
      ((r.inject_packet packet).1 = true ↔
        (r.input_queue.shutdown = false ∧ r.input_queue.size < 10000))) ∧
    (∀ (num_cores : Int) (strategy : LoadBalancingStrategy) (as : List Action),
      (acts (Router.init num_cores strategy, 0) as).1.input_queue.max_size = 10000) := by
  refine ⟨rfl, rfl, rfl, rfl, rfl, fun hcap => ?_, fun n s as => ?_⟩
  · have h := (ThreadSafeQueue.push_contract r.input_queue packet).1
    simp only [inject_packet, ThreadSafeQueue.size]
    rw [hcap] at h
    constructor
    · intro ht
      have hnf : ¬ ((r.input_queue.push packet).1 = false) := by simp [ht]
      rw [h] at hnf
      push_neg at hnf
      exact ⟨by simpa using hnf.1, hnf.2⟩
    · rintro ⟨hs, hl⟩
      have hnf : ¬ ((r.input_queue.push packet).1 = false) := by
        rw [h]; push_neg; exact ⟨by simp [hs], hl⟩
      simpa using hnf
  · rw [acts_max_size]; rfl

theorem inject_packet_frame_witness :
    (((Router.init 2 LoadBalancingStrategy.ROUND_ROBIN).inject_packet Packet.default).1 = true ↔
      ((Router.init 2 LoadBalancingStrategy.ROUND_ROBIN).input_queue.shutdown = false ∧
        (Router.init 2 LoadBalancingStrategy.ROUND_ROBIN).input_queue.size < 10000)) ∧
    ((Router.init 2 LoadBalancingStrategy.ROUND_ROBIN).stop.inject_packet Packet.default).2.stats
      = (Router.init 2 LoadBalancingStrategy.ROUND_ROBIN).stop.stats :=
  ⟨(inject_packet_frame (Router.init 2 LoadBalancingStrategy.ROUND_ROBIN) Packet.default).2.2.2.2.2.1
      (by decide),
    (inject_packet_frame (Router.init 2 LoadBalancingStrategy.ROUND_ROBIN).stop
      Packet.default).2.2.1⟩

theorem pop_size (q q' : ThreadSafeQueue Packet) (r : Option Packet)
    (h : q.pop = some (r, q')) : q'.size + (if r.isSome then 1 else 0) = q.size := by
  unfold ThreadSafeQueue.pop at h
  split_ifs at h with h1 h2
  · simp only [Option.some.injEq, Prod.mk.injEq] at h
    obtain ⟨hr, hq⟩ := h
    subst hr hq
    simp
  · simp only [Option.some.injEq, Prod.mk.injEq] at h
    obtain ⟨hr, hq⟩ := h
    subst hr hq
    cases hl : q.queue with
    | nil => simp [ThreadSafeQueue.size, hl]
    | cons x rest => simp [ThreadSafeQueue.size, hl]

theorem worker_iteration_conserved (core : RoutingCore) (q : ThreadSafeQueue Packet)
    (t : RoutingTable) (now_us : Nat) (stats : Statistics) :
    (RoutingCore.worker_iteration core q t now_us stats).2.2.2.total_packets
        + (RoutingCore.worker_iteration core q t now_us stats).2.2.1.size
      = stats.total_packets + q.size := by
  unfold RoutingCore.worker_iteration
  split_ifs with hr
  · rfl
  · rcases hp : q.pop with _ | ⟨_ | x, q'⟩
    · rfl
    · have h := pop_size q q' none hp
      simp only [Option.isSome_none, Bool.false_eq_true, if_false, Nat.add_zero] at h
      simp only [h]
    · have h := pop_size q q' (some x) hp
      simp only [Option.isSome_some, if_true] at h
      simp only [RoutingCore.process_packet_total_packets]
      omega

theorem act_conserved (st : Router × Nat) (a : Action) (h : Conserved st) :
    Conserved (act st a) := by
  unfold Conserved at h ⊢
  cases a with
  | inject packet =>
    simp only [act, inject_packet, ThreadSafeQueue.push, ThreadSafeQueue.size] at h ⊢
    split_ifs <;> simp_all [Nat.add_assoc]
  | simulate packet =>
    simp only [act, admit_or_count, inject_packet, ThreadSafeQueue.push, ThreadSafeQueue.size,
      count_rejected] at h ⊢
    split_ifs <;> simp_all [Nat.add_assoc]
  | work i now_us =>
    simp only [act, work]
    cases hc : st.1.cores[i]? with
    | none => exact h
    | some core =>
      have hw := worker_iteration_conserved core st.1.input_queue st.1.routing_table now_us
        st.1.stats
      simp only
      omega
  | add_route k p => exact h
  | start => exact h
  | stop => exact h
  | set_shutdown => exact h
  | stop_core i => exact h

theorem acts_conserved (st : Router × Nat) (as : List Action) (h : Conserved st) :
    Conserved (acts st as) := by
  induction as generalizing st with
  | nil => exact h
  | cons a as ih => exact ih (act st a) (act_conserved st a h)

/-- C19: packet conservation.  On a freshly constructed router, after every
finite sequence of `inject_packet` calls, admission steps of `run_simulation`,
worker passes (a `pop` followed, when it returned a packet, by
`process_packet`), `add_route`, `start` and `stop` calls (or single statements
of `stop`), the number of
`inject_packet` calls that returned true equals `stats.total_packets` plus the
number of packets in the input queue. -/
theorem packet_conservation (num_cores : Int) (strategy : LoadBalancingStrategy)
    (as : List Action) :
    (acts (Router.init num_cores strategy, 0) as).2
      = (acts (Router.init num_cores strategy, 0) as).1.stats.total_packets
        + (acts (Router.init num_cores strategy, 0) as).1.input_queue.size :=
  acts_conserved (Router.init num_cores strategy, 0) as rfl

end Router

/-! ## The worker loop -/

namespace RoutingCore

end RoutingCore

/-! ## Threads blocked in `pop` at shutdown -/

namespace ThreadSafeQueue

variable {α : Type}

theorem length_modifyNth (f : PopCall α → PopCall α) (l : List (PopCall α)) (i : Nat) :
    (modifyNth f l i).length = l.length := by
  induction l generalizing i with
  | nil => rfl
  | cons t ts ih =>
    cases i with
    | zero => rfl
    | succ i => simp [modifyNth, ih]

theorem getElem?_modifyNth_self (f : PopCall α → PopCall α) (l : List (PopCall α)) (i : Nat) :
    (modifyNth f l i)[i]? = (l[i]?).map f := by
  induction l generalizing i with
  | nil => rfl
  | cons t ts ih =>
    cases i with
    | zero => simp [modifyNth]
    | succ i => simp [modifyNth, ih]

theorem getElem?_modifyNth_ne (f : PopCall α → PopCall α) (l : List (PopCall α)) (i j : Nat)
    (h : j ≠ i) : (modifyNth f l i)[j]? = l[j]? := by
  induction l generalizing i j with
  | nil => rfl
  | cons t ts ih =>
    cases i with
    | zero =>
      cases j with
      | zero => exact absurd rfl h
      | succ j => rfl
    | succ i =>
      cases j with
      | zero => simp [modifyNth]
      | succ j => simp [modifyNth, ih i j (fun e => h (by rw [e]))]

theorem mem_modifyNth (f : PopCall α → PopCall α) (l : List (PopCall α)) (i : Nat)
    (t : PopCall α) (h : t ∈ modifyNth f l i) : t ∈ l ∨ ∃ u ∈ l, t = f u := by
  induction l generalizing i with
  | nil => simp [modifyNth] at h
  | cons a ts ih =>
    cases i with
    | zero =>
      simp only [modifyNth, List.mem_cons] at h
      rcases h with h | h
      · exact Or.inr ⟨a, List.mem_cons_self _ _, h⟩
      · exact Or.inl (List.mem_cons_of_mem _ h)
    | succ i =>
      simp only [modifyNth, List.mem_cons] at h
      rcases h with h | h
      · exact Or.inl (h ▸ List.mem_cons_self _ _)
      · rcases ih i h with h' | ⟨u, hu, e⟩
        · exact Or.inl (List.mem_cons_of_mem _ h')
        · exact Or.inr ⟨u, List.mem_cons_of_mem _ hu, e⟩

theorem wake_of_awake (t : PopCall α) (h : t = PopCall.ready ∨ t = PopCall.returned none) :
    t.wake = t := by
  rcases h with h | h <;> subst h <;> rfl

theorem run_thread_drained (s : Pool α) (i : Nat) (h : s.Drained) :
    (s.run_thread i).Drained ∧
    (i < s.threads.length → (s.run_thread i).threads[i]? = some (PopCall.returned none)) := by
  obtain ⟨hs, he, ht⟩ := h
  have hp := pop_of_shutdown_empty s.q hs he
  unfold Pool.run_thread
  cases hi : s.threads[i]? with
  | none =>
    refine ⟨⟨hs, he, ht⟩, fun hlt => ?_⟩
    rw [List.getElem?_eq_none_iff] at hi
    omega
  | some t =>
    have hmem : t ∈ s.threads := List.getElem?_mem hi
    rcases ht t hmem with h1 | h1
    · subst h1
      simp only [hp]
      refine ⟨⟨hs, he, fun u hu => ?_⟩, fun _ => ?_⟩
      · rcases mem_modifyNth _ _ _ _ hu with h' | ⟨v, _, e⟩
        · exact ht u h'
        · exact Or.inr e
      · rw [getElem?_modifyNth_self, hi]; rfl
    · subst h1
      exact ⟨⟨hs, he, ht⟩, fun _ => hi⟩

theorem move_drained (s : Pool α) (m : Move α) (h : s.Drained) : (s.move m).Drained := by
  cases m with
  | run i => exact (run_thread_drained s i h).1
  | push x wake =>
    obtain ⟨hs, he, ht⟩ := h
    have hrej : s.q.push x = (false, s.q) := by simp [push, hs]
    simp only [Pool.move, hrej, Bool.false_eq_true, if_false]
    exact ⟨hs, he, ht⟩
  | set_shutdown =>
    obtain ⟨hs, he, ht⟩ := h
    refine ⟨rfl, he, fun t hmem => ?_⟩
    simp only [Pool.move, List.mem_map] at hmem
    obtain ⟨u, hu, e⟩ := hmem
    rw [wake_of_awake u (ht u hu)] at e
    exact e ▸ ht u hu
  | spurious i =>
    obtain ⟨hs, he, ht⟩ := h
    refine ⟨hs, he, fun t hmem => ?_⟩
    rcases mem_modifyNth _ _ _ _ hmem with h' | ⟨u, hu, e⟩
    · exact ht t h'
    · rw [wake_of_awake u (ht u hu)] at e
      exact e ▸ ht u hu

theorem move_length (s : Pool α) (m : Move α) : (s.move m).threads.length = s.threads.length := by
  cases m with
  | run i =>
    simp only [Pool.move, Pool.run_thread]
    cases hi : s.threads[i]? with
    | none => rfl
    | some t =>
      cases t with
      | ready =>
        cases hp : s.q.pop with
        | none => simp [length_modifyNth]
        | some r => simp [length_modifyNth]
      | waiting => rfl
      | returned r => rfl
  | push x wake =>
    simp only [Pool.move]
    split_ifs
    · simp [length_modifyNth]
    · rfl
  | set_shutdown => simp [Pool.move]
  | spurious i => simp [Pool.move, length_modifyNth]

/-- A thread that has returned "no item" stays so. -/
theorem move_keeps_returned (s : Pool α) (m : Move α) (i : Nat) (h : s.Drained)
    (hi : s.threads[i]? = some (PopCall.returned none)) :
    (s.move m).threads[i]? = some (PopCall.returned none) := by
  obtain ⟨hs, he, ht⟩ := h
  cases m with
  | run j =>
    by_cases hji : j = i
    · subst hji
      simp only [Pool.move, Pool.run_thread, hi]
    · simp only [Pool.move, Pool.run_thread]
      cases hj : s.threads[j]? with
      | none => exact hi
      | some t =>
        cases t with
        | ready =>
          rw [pop_of_shutdown_empty s.q hs he]
          simp only
          rw [getElem?_modifyNth_ne _ _ _ _ (fun e => hji e.symm)]
          exact hi
        | waiting => exact hi
        | returned r => exact hi
  | push x wake =>
    have hrej : s.q.push x = (false, s.q) := by simp [push, hs]
    simp only [Pool.move, hrej, Bool.false_eq_true, if_false]
    exact hi
  | set_shutdown =>
    simp only [Pool.move, List.getElem?_map, hi]
    rfl
  | spurious j =>
    by_cases hji : j = i
    · subst hji
      simp only [Pool.move]
      rw [getElem?_modifyNth_self, hi]; rfl
    · simp only [Pool.move]
      rw [getElem?_modifyNth_ne _ _ _ _ (fun e => hji e.symm)]
      exact hi

theorem moves_drained (s : Pool α) (ms : List (Move α)) (h : s.Drained) :
    (s.moves ms).Drained ∧ (s.moves ms).threads.length = s.threads.length ∧
    ∀ i, i < s.threads.length →
      (s.threads[i]? = some (PopCall.returned none) ∨ Move.run i ∈ ms) →
      (s.moves ms).threads[i]? = some (PopCall.returned none) := by
  induction ms generalizing s with
  | nil =>
    refine ⟨h, rfl, fun i _ hi => ?_⟩
    rcases hi with hi | hi
    · exact hi
    · simp at hi
  | cons m ms ih =>
    have hd := move_drained s m h
    have hl := move_length s m
    obtain ⟨h1, h2, h3⟩ := ih (s.move m) hd
    refine ⟨h1, by rw [← hl]; exact h2, fun i hlt hi => ?_⟩
    apply h3 i (by rw [hl]; exact hlt)
    rcases hi with hi | hi
    · exact Or.inl (move_keeps_returned s m i h hi)
    · rcases List.mem_cons.1 hi with e | hmem
      · subst e
        exact Or.inl ((run_thread_drained s i h).2 hlt)
      · exact Or.inr hmem

theorem modifyNth_append_length (f : PopCall α → PopCall α) (l₁ l₂ : List (PopCall α))
    (a : PopCall α) : modifyNth f (l₁ ++ a :: l₂) l₁.length = l₁ ++ f a :: l₂ := by
  induction l₁ with
  | nil => rfl
  | cons t ts ih => simp [modifyNth, ih]

/-- The first `k` of `N` threads that call `pop` on an empty open queue are
suspended one after the other. -/
theorem moves_block (N c k : Nat) (hk : k ≤ N) :
    (Pool.mk (init c : ThreadSafeQueue α) (List.replicate N PopCall.ready)).moves
        ((List.range k).map Move.run)
      = Pool.mk (init c)
          (List.replicate k PopCall.waiting ++ List.replicate (N - k) PopCall.ready) := by
  induction k with
  | zero => simp [Pool.moves]
  | succ k ih =>
    have ih' := ih (by omega)
    have hN : N - k = (N - (k + 1)) + 1 := by omega
    simp only [Pool.moves] at ih' ⊢
    rw [List.range_succ, List.map_append, List.foldl_append, ih', hN, List.replicate_succ]
    have hlen : (List.replicate k (PopCall.waiting : PopCall α)).length = k :=
      List.length_replicate _ _
    have hget : (List.replicate k (PopCall.waiting : PopCall α)
        ++ PopCall.ready :: List.replicate (N - (k + 1)) PopCall.ready)[k]?
          = some PopCall.ready := by
      rw [List.getElem?_append_right (by rw [hlen])]
      simp [hlen]
    have hpop : (init c : ThreadSafeQueue α).pop = none := by simp [pop, ready, init]
    have hmod := modifyNth_append_length (fun _ => (PopCall.waiting : PopCall α))
      (List.replicate k PopCall.waiting) (List.replicate (N - (k + 1)) PopCall.ready)
      PopCall.ready
    rw [hlen] at hmod
    simp only [List.map_cons, List.map_nil, List.foldl_cons, List.foldl_nil, Pool.move,
      Pool.run_thread, hget, hpop, hmod]
    rw [List.replicate_succ', List.append_assoc]
    rfl

/-- C13: shutdown wakes all waiters.  `N` threads that called `pop` on an
empty, open queue are all suspended in `cv.wait`.  `set_shutdown` then wakes
every one of them (`notify_all`).  From then on, whatever the schedule, further
`push` and `set_shutdown` calls and spurious wake-ups included, no thread is
ever suspended again: each is either about to re-evaluate the wait predicate
or has returned "no item", and every thread that gets to run returns "no
item".  The queue stays empty and no thread is handed an item, so nothing is
lost or delivered twice. -/
theorem shutdown_wakes_all (N c : Nat) (ms : List (Move α)) :
    (Pool.mk (init c : ThreadSafeQueue α) (List.replicate N PopCall.ready)).moves
        ((List.range N).map Move.run)
      = Pool.mk (init c) (List.replicate N PopCall.waiting) ∧
    (Pool.mk (init c : ThreadSafeQueue α) (List.replicate N PopCall.waiting)).move
        Move.set_shutdown
      = Pool.mk (init c).set_shutdown (List.replicate N PopCall.ready) ∧
    (((Pool.mk (init c : ThreadSafeQueue α) (List.replicate N PopCall.waiting)).move
        Move.set_shutdown).moves ms).q.queue = [] ∧
    (((Pool.mk (init c : ThreadSafeQueue α) (List.replicate N PopCall.waiting)).move
        Move.set_shutdown).moves ms).q.shutdown = true ∧
    (((Pool.mk (init c : ThreadSafeQueue α) (List.replicate N PopCall.waiting)).move
        Move.set_shutdown).moves ms).threads.length = N ∧
    (∀ t ∈ (((Pool.mk (init c : ThreadSafeQueue α) (List.replicate N PopCall.waiting)).move
        Move.set_shutdown).moves ms).threads, t = PopCall.ready ∨ t = PopCall.returned none) ∧
    (∀ i, i < N → Move.run i ∈ ms →
      (((Pool.mk (init c : ThreadSafeQueue α) (List.replicate N PopCall.waiting)).move
        Move.set_shutdown).moves ms).threads[i]? = some (PopCall.returned none)) := by
  have hwake : (Pool.mk (init c : ThreadSafeQueue α) (List.replicate N PopCall.waiting)).move
      Move.set_shutdown = Pool.mk (init c).set_shutdown (List.replicate N PopCall.ready) := by
    simp [Pool.move, PopCall.wake]
  have hd : (Pool.mk (init c : ThreadSafeQueue α).set_shutdown
      (List.replicate N PopCall.ready)).Drained :=
    ⟨rfl, rfl, fun t ht => Or.inl (List.eq_of_mem_replicate ht)⟩
  have hblock := @moves_block α N c N le_rfl
  simp only [Nat.sub_self, List.replicate_zero, List.append_nil] at hblock
  rw [hwake]
  obtain ⟨⟨h1, h2, h3⟩, h4, h5⟩ := moves_drained _ ms hd
  simp only [List.length_replicate] at h4 h5
  exact ⟨hblock, rfl, h2, h1, h4, h3, fun i hi hrun => h5 i hi (Or.inr hrun)⟩

theorem shutdown_wakes_all_witness :
    (((Pool.mk (init 4 : ThreadSafeQueue Nat) (List.replicate 3 PopCall.waiting)).move
        Move.set_shutdown).moves
          [Move.run 1, Move.push 5 0, Move.spurious 2, Move.run 0, Move.set_shutdown,
            Move.run 2]).threads[2]? = some (PopCall.returned none) :=
  (@shutdown_wakes_all Nat 3 4
    [Move.run 1, Move.push 5 0, Move.spurious 2, Move.run 0, Move.set_shutdown,
      Move.run 2]).2.2.2.2.2.2 2 (by decide) (by decide)

end ThreadSafeQueue

/-! ## Order properties of the percentile -/

namespace Double

theorem round53_round53 (n : Nat) (h : n < 2 ^ 53) : round53 (round53 n) = n := by
  rw [round53_of_lt n h, round53_of_lt n h]

/-- The truncated product of the double `1` (in any representation
`2^e / 2^e`) with a count below `2^53` is the count. -/
theorem toSize_one_mul_ofSize (p : Double) (n : Nat) (hp : p.toRat = 1) (hn : n < 2 ^ 53) :
    toSize (mul p (ofSize n)) = n := by
  have hnum : p.num = 2 ^ p.exp := by
    unfold toRat at hp
    have h2 : (0 : ℚ) < 2 ^ p.exp := by positivity
    rw [div_eq_one_iff_eq (ne_of_gt h2)] at hp
    exact_mod_cast hp
  simp only [toSize, mul, ofSize, Nat.add_zero, hnum, round53_of_lt n hn]
  rw [Nat.mul_comm, round53_mul_two_pow, round53_of_lt n hn]
  exact Nat.mul_div_cancel _ (Nat.two_pow_pos _)

theorem toSize_zero_mul_ofSize (p : Double) (n : Nat) (hp : p.toRat = 0) :
    toSize (mul p (ofSize n)) = 0 := by
  have hnum : p.num = 0 := by
    unfold toRat at hp
    have h2 : (2 : ℚ) ^ p.exp ≠ 0 := by positivity
    rcases div_eq_zero_iff.1 hp with h | h
    · exact_mod_cast h
    · exact absurd h h2
  simp [toSize, mul, ofSize, hnum, round53_of_lt]

end Double

namespace Statistics

/-- The value is the element of the sorted samples at the percentile index. -/
theorem get_percentile_latency_eq_getElem (s : Statistics) (p : Double)
    (hne : s.latencies ≠ [])
    (hlt : percentile_index p (s.latencies.insertionSort (· ≤ ·)).length
      < (s.latencies.insertionSort (· ≤ ·)).length) :
    s.get_percentile_latency p
      = (s.latencies.insertionSort (· ≤ ·))[percentile_index p
          (s.latencies.insertionSort (· ≤ ·)).length] := by
  have hemp : s.latencies.isEmpty = false := by
    cases hl : s.latencies with
    | nil => exact absurd hl hne
    | cons a l => rfl
  simp only [get_percentile_latency, hemp, Bool.false_eq_true, if_false]
  exact List.getD_eq_getElem _ _ hlt

theorem sorted_getElem_mono (l : List Nat) (hs : l.Sorted (· ≤ ·)) (i j : Nat)
    (hi : i < l.length) (hj : j < l.length) (hij : i ≤ j) : l[i] ≤ l[j] :=
  hs.rel_get_of_le (show (⟨i, hi⟩ : Fin l.length) ≤ ⟨j, hj⟩ from hij)

/-- C20: `get_percentile_latency` is monotone and bounded.  For a non-empty
sample sequence: for doubles `p ≤ q` the value at `p` is at most the value at
`q`; the value is one of the recorded samples; for `p = 0` it is the minimum
sample; for `p = 1` it is the maximum sample (the sample count being below
`2^53`, so that its conversion to `double` is exact); and the value does not
depend on the order in which the samples were recorded. -/
theorem percentile_monotone_bounded (s : Statistics) (p q : Double)
    (hne : s.latencies ≠ []) :
    (p.toRat ≤ q.toRat → s.get_percentile_latency p ≤ s.get_percentile_latency q) ∧
    s.get_percentile_latency p ∈ s.latencies ∧
    (p.toRat = 0 → ∀ x ∈ s.latencies, s.get_percentile_latency p ≤ x) ∧
    (p.toRat = 1 → s.latencies.length < 2 ^ 53 →
      ∀ x ∈ s.latencies, x ≤ s.get_percentile_latency p) ∧
    (∀ s' : Statistics, s'.latencies.Perm s.latencies →
      s'.get_percentile_latency p = s.get_percentile_latency p) := by
  have hsorted := List.sorted_insertionSort (· ≤ ·) s.latencies
  have hperm := List.perm_insertionSort (· ≤ ·) s.latencies
  have hlen : (s.latencies.insertionSort (· ≤ ·)).length = s.latencies.length := hperm.length_eq
  have hpos : 0 < (s.latencies.insertionSort (· ≤ ·)).length := by
    rw [hlen]; exact List.length_pos.2 hne
  have hp := percentile_index_lt p _ hpos
  have hq := percentile_index_lt q _ hpos
  have ep := get_percentile_latency_eq_getElem s p hne hp
  have eq := get_percentile_latency_eq_getElem s q hne hq
  refine ⟨fun hle => ?_, ?_, fun h0 x hx => ?_, fun h1 hn x hx => ?_,
    fun s' h => get_percentile_latency_perm s s' p h⟩
  · rw [ep, eq]
    exact sorted_getElem_mono _ hsorted _ _ hp hq (percentile_index_mono p q _ hle)
  · rw [ep]
    exact hperm.mem_iff.1 (List.getElem_mem _)
  · rw [ep]
    obtain ⟨j, hj, e⟩ := List.getElem_of_mem (hperm.mem_iff.2 hx)
    have hidx : percentile_index p (s.latencies.insertionSort (· ≤ ·)).length = 0 := by
      rw [percentile_index_eq_min, Double.toSize_zero_mul_ofSize p _ h0]
      exact Nat.zero_min _
    rw [← e]
    exact sorted_getElem_mono _ hsorted _ _ hp hj (by omega)
  · rw [ep]
    obtain ⟨j, hj, e⟩ := List.getElem_of_mem (hperm.mem_iff.2 hx)
    have hidx : percentile_index p (s.latencies.insertionSort (· ≤ ·)).length
        = (s.latencies.insertionSort (· ≤ ·)).length - 1 := by
      rw [percentile_index_eq_min, Double.toSize_one_mul_ofSize p _ h1 (by rw [hlen]; exact hn)]
      omega
    rw [← e]
    exact sorted_getElem_mono _ hsorted _ _ hj hp (by omega)

theorem percentile_monotone_bounded_witness :
    ({ Statistics.init with latencies := [40, 10, 50, 30, 20] }).get_percentile_latency
        Double.half
      ≤ ({ Statistics.init with latencies := [40, 10, 50, 30, 20] }).get_percentile_latency
        Double.p99 ∧
    (∀ x ∈ [40, 10, 50, 30, 20],
      ({ Statistics.init with latencies := [40, 10, 50, 30, 20] }).get_percentile_latency
        (Double.mk 0 0) ≤ x) ∧
    (∀ x ∈ [40, 10, 50, 30, 20],
      x ≤ ({ Statistics.init with latencies := [40, 10, 50, 30, 20] }).get_percentile_latency
        (Double.mk 1 0)) :=
  ⟨(percentile_monotone_bounded { Statistics.init with latencies := [40, 10, 50, 30, 20] }
      Double.half Double.p99 (by decide)).1
      (by rw [Double.toRat_le_iff]; decide),
    (percentile_monotone_bounded { Statistics.init with latencies := [40, 10, 50, 30, 20] }
      (Double.mk 0 0) Double.p99 (by decide)).2.2.1 (by simp [Double.toRat]),
    (percentile_monotone_bounded { Statistics.init with latencies := [40, 10, 50, 30, 20] }
      (Double.mk 1 0) Double.p99 (by decide)).2.2.2.1 (by simp [Double.toRat]) (by decide)⟩

end Statistics
